import Mathlib

/-!
Verification development for the telegram-channels-monitor repository.

The Python sources are shallowly embedded: dictionaries become association
lists of string keys and `PyVal` values (first binding wins, as in a Python
dict, whose keys are unique), optional/raising code becomes `Option`/`Except`,
and functions from the Python standard library that the repository merely
calls (datetime parsing, html unescaping, md5) are passed in as explicit
function parameters collected in `PyLib`.
-/

namespace TCM

/-- A Python value as it appears in the message dictionaries of the
repository: `None`, booleans, integers, strings, lists and dictionaries. -/
inductive PyVal where
  | vNone : PyVal
  | vBool : Bool → PyVal
  | vInt : Int → PyVal
  | vStr : String → PyVal
  | vList : List PyVal → PyVal
  | vDict : List (String × PyVal) → PyVal
  deriving Repr

mutual

/-- Structural (Python `==`) equality of values. -/
def PyVal.beq : PyVal → PyVal → Bool
  | .vNone, .vNone => true
  | .vBool a, .vBool b => a == b
  | .vInt a, .vInt b => a == b
  | .vStr a, .vStr b => a == b
  | .vList xs, .vList ys => PyVal.beqList xs ys
  | .vDict xs, .vDict ys => PyVal.beqKVs xs ys
  | _, _ => false

/-- Pointwise equality of value lists. -/
def PyVal.beqList : List PyVal → List PyVal → Bool
  | [], [] => true
  | x :: xs, y :: ys => PyVal.beq x y && PyVal.beqList xs ys
  | _, _ => false

/-- Pointwise equality of key-value lists. -/
def PyVal.beqKVs : List (String × PyVal) → List (String × PyVal) → Bool
  | [], [] => true
  | (k, v) :: xs, (k', v') :: ys =>
    k == k' && PyVal.beq v v' && PyVal.beqKVs xs ys
  | _, _ => false

end

mutual

def PyVal.beq_iff : ∀ a b : PyVal, PyVal.beq a b = true ↔ a = b
  | .vNone, .vNone => by simp [PyVal.beq]
  | .vBool a, .vBool b => by simp [PyVal.beq]
  | .vInt a, .vInt b => by simp [PyVal.beq]
  | .vStr a, .vStr b => by simp [PyVal.beq]
  | .vList xs, .vList ys => by simp [PyVal.beq, PyVal.beqList_iff xs ys]
  | .vDict xs, .vDict ys => by simp [PyVal.beq, PyVal.beqKVs_iff xs ys]
  | .vNone, .vBool _ | .vNone, .vInt _ | .vNone, .vStr _ | .vNone, .vList _
  | .vNone, .vDict _ | .vBool _, .vNone | .vBool _, .vInt _ | .vBool _, .vStr _
  | .vBool _, .vList _ | .vBool _, .vDict _ | .vInt _, .vNone | .vInt _, .vBool _
  | .vInt _, .vStr _ | .vInt _, .vList _ | .vInt _, .vDict _ | .vStr _, .vNone
  | .vStr _, .vBool _ | .vStr _, .vInt _ | .vStr _, .vList _ | .vStr _, .vDict _
  | .vList _, .vNone | .vList _, .vBool _ | .vList _, .vInt _ | .vList _, .vStr _
  | .vList _, .vDict _ | .vDict _, .vNone | .vDict _, .vBool _ | .vDict _, .vInt _
  | .vDict _, .vStr _ | .vDict _, .vList _ => by simp [PyVal.beq]

def PyVal.beqList_iff : ∀ xs ys : List PyVal,
    PyVal.beqList xs ys = true ↔ xs = ys
  | [], [] => by simp [PyVal.beqList]
  | x :: xs, y :: ys => by
    simp [PyVal.beqList, PyVal.beq_iff x y, PyVal.beqList_iff xs ys]
  | [], _ :: _ => by simp [PyVal.beqList]
  | _ :: _, [] => by simp [PyVal.beqList]

def PyVal.beqKVs_iff : ∀ xs ys : List (String × PyVal),
    PyVal.beqKVs xs ys = true ↔ xs = ys
  | [], [] => by simp [PyVal.beqKVs]
  | (k, v) :: xs, (k', v') :: ys => by
    simp [PyVal.beqKVs, PyVal.beq_iff v v', PyVal.beqKVs_iff xs ys,
      Prod.ext_iff, and_assoc]
  | [], _ :: _ => by simp [PyVal.beqKVs]
  | _ :: _, [] => by simp [PyVal.beqKVs]

end

instance : DecidableEq PyVal :=
  fun a b => decidable_of_iff (PyVal.beq a b = true) (PyVal.beq_iff a b)

/-- `v is None` (the identity check used by the sender-info pruning). -/
def PyVal.isNone : PyVal → Bool
  | .vNone => true
  | _ => false

/-- A Python dictionary with string keys, in insertion order. -/
abbrev PyDict := List (String × PyVal)

/-- `d[k]` / `d.get(k)`: the value of the first binding of `k`, if any. -/
def dictGet (d : PyDict) (k : String) : Option PyVal :=
  match d with
  | [] => none
  | (k', v) :: rest => if k' = k then some v else dictGet rest k

/-- `k in d`. -/
def dictHas (d : PyDict) (k : String) : Bool :=
  (dictGet d k).isSome

/-- `d[k] = v`: replace the first binding of `k` in place, else append
(a new key goes to the end, as in Python insertion order). -/
def dictSet (d : PyDict) (k : String) (v : PyVal) : PyDict :=
  match d with
  | [] => [(k, v)]
  | (k', v') :: rest =>
    if k' = k then (k', v) :: rest else (k', v') :: dictSet rest k v

/-- `del d[k]`. -/
def dictDel (d : PyDict) (k : String) : PyDict :=
  d.filter (fun kv => kv.1 ≠ k)

/-- Python truthiness of a value (`bool(v)`). -/
def pyTruthy : PyVal → Bool
  | .vNone => false
  | .vBool b => b
  | .vInt n => n ≠ 0
  | .vStr s => s ≠ ""
  | .vList l => !l.isEmpty
  | .vDict d => !d.isEmpty

/-- The standard-library functions the repository calls but does not define.
`dateOk s` models `datetime.fromisoformat(s)` succeeding, `isoNorm s` models
`datetime.fromisoformat(s).isoformat()` (`none` when parsing raises),
`unescapeHtml` models `html.unescape`, `parseDate` models parsing to a
timestamp whose `Int` order mirrors datetime comparison, `md5` models
`hashlib.md5(...).hexdigest()` over a file's bytes, and `guessExt` models
`mimetypes.guess_extension`. -/
structure PyLib where
  dateOk : String → Bool
  isoNorm : String → Option String
  unescapeHtml : String → String
  parseDate : String → Option Int
  md5 : String → String
  guessExt : String → Option String

/-- `s.replace('Z', '+00:00')`, done before every date parse in the code. -/
def replaceZ (s : String) : String :=
  ⟨s.data.foldr
    (fun c acc => if c = 'Z' then '+' :: '0' :: '0' :: ':' :: '0' :: '0' :: acc
                  else c :: acc) []⟩

/-- The whitespace characters of a Python `\s` (ASCII range). -/
def isPySpace (c : Char) : Bool :=
  c = ' ' || c = '\t' || c = '\n' || c = '\r' || c = '\x0b' || c = '\x0c'

/-- The first list is an initial segment of the second. -/
def leadsWith : List Char → List Char → Bool
  | [], _ => true
  | c :: p, d :: s => c == d && leadsWith p s
  | _ :: _, [] => false

/-- `s.startswith(p)`. -/
def strStartsWith (s p : String) : Bool :=
  leadsWith p.data s.data

namespace DataValidator

/-- The configuration fields of `DataValidator.__init__` with their defaults
(`remove_empty_messages` is read by `__init__` but never used, so it is not
modelled). -/
structure Config where
  maxTextLength : Nat := 10000
  minTextLength : Nat := 0
  removeDeletedUsers : Bool := true
  validateDates : Bool := true
  cleanHtml : Bool := true
  removeDuplicates : Bool := true

/-- `DataValidator.validate_message`. Returns `(ok, reason)` exactly as the
Python does; the one reachable path to the outer `except` branch is
`sender_info.get` on a non-dict value (an `AttributeError`), which yields the
`"Ошибка валидации"` reason. -/
def validateMessage (lib : PyLib) (cfg : Config) (m : PyDict) :
    Bool × Option String :=
  if ¬ dictHas m "id" then
    (false, some "Отсутствует обязательное поле: id")
  else if ¬ dictHas m "date" then
    (false, some "Отсутствует обязательное поле: date")
  else if ¬ dictHas m "message" then
    (false, some "Отсутствует обязательное поле: message")
  else
    match dictGet m "id" with
    | some (.vInt n) =>
      if n ≤ 0 then (false, some "Неверный формат ID сообщения")
      else
        let dateBad :=
          cfg.validateDates &&
            (match dictGet m "date" with
             | some (.vStr s) => !(lib.dateOk (replaceZ s))
             | _ => false)
        if dateBad then (false, some "Неверный формат даты")
        else
          match (dictGet m "message").getD (.vStr "") with
          | .vStr t =>
            if t.length < cfg.minTextLength then
              (false, some "Текст слишком короткий")
            else if t.length > cfg.maxTextLength then
              (false, some "Текст слишком длинный")
            else if cfg.removeDeletedUsers then
              match (dictGet m "sender_info").getD (.vDict []) with
              | .vDict si =>
                if pyTruthy ((dictGet si "deleted").getD (.vBool false)) then
                  (false, some "Сообщение от удаленного пользователя")
                else (true, none)
              | _ => (false, some "Ошибка валидации")
            else (true, none)
          | _ => (false, some "Текст сообщения должен быть строкой")
    | _ => (false, some "Неверный формат ID сообщения")

/-- One maximal whitespace run becomes a single space
(`re.sub(r'\s+', ' ', text)`); the boolean tracks whether the previous
character was whitespace. -/
def collapseWsAux : Bool → List Char → List Char
  | _, [] => []
  | prevWs, c :: cs =>
    if isPySpace c then
      if prevWs then collapseWsAux true cs
      else ' ' :: collapseWsAux true cs
    else c :: collapseWsAux false cs

/-- `text.strip()` over the ASCII whitespace set. -/
def pyStrip (l : List Char) : List Char :=
  ((l.dropWhile isPySpace).reverse.dropWhile isPySpace).reverse

/-- The control characters removed by
`re.sub(r'[\x00-\x08\x0B\x0C\x0E-\x1F\x7F]', '', text)`. -/
def isStrippedCtl (c : Char) : Bool :=
  (c.toNat ≤ 0x08) || c.toNat = 0x0b || c.toNat = 0x0c ||
  (0x0e ≤ c.toNat && c.toNat ≤ 0x1f) || c.toNat = 0x7f

/-- The text-cleaning part of `clean_message`: optional HTML unescaping,
whitespace collapse and strip, control-character removal. -/
def cleanText (lib : PyLib) (cfg : Config) (t : String) : String :=
  let t := if cfg.cleanHtml then lib.unescapeHtml t else t
  ⟨(pyStrip (collapseWsAux false t.data)).filter (fun c => !isStrippedCtl c)⟩

/-- `DataValidator.clean_message`: text cleaning, date renormalization,
pruning of `None` fields from `sender_info`, and removal of falsy media
keys, all on a copy of the record. -/
def cleanMessage (lib : PyLib) (cfg : Config) (m : PyDict) : PyDict :=
  let c := m
  let c :=
    match dictGet c "message" with
    | some (.vStr t) => dictSet c "message" (.vStr (cleanText lib cfg t))
    | _ => c
  let c :=
    match dictGet c "date" with
    | some (.vStr s) =>
      match lib.isoNorm (replaceZ s) with
      | some s' => dictSet c "date" (.vStr s')
      | none => c
    | _ => c
  let c :=
    match dictGet c "sender_info" with
    | some (.vDict si) =>
      dictSet c "sender_info" (.vDict (si.filter (fun kv => !kv.2.isNone)))
    | _ => c
  ["photo", "video", "audio", "document", "sticker"].foldl
    (fun c k =>
      match dictGet c k with
      | some v => if pyTruthy v then c else dictDel c k
      | none => c) c

/-- The `message.get('id')` value the deduplication keys on. -/
def idOf (m : PyDict) : PyVal :=
  (dictGet m "id").getD .vNone

/-- The loop of `remove_duplicates_from_list`: drop a record whose truthy
`id` was already seen; keep records with no (or falsy) `id`. -/
def dedupGo (seen : List PyVal) : List PyDict → List PyDict
  | [] => []
  | m :: ms =>
    if pyTruthy (idOf m) then
      if idOf m ∈ seen then dedupGo seen ms
      else m :: dedupGo (idOf m :: seen) ms
    else m :: dedupGo seen ms

/-- `DataValidator.remove_duplicates_from_list`. -/
def removeDuplicatesFromList (cfg : Config) (msgs : List PyDict) :
    List PyDict :=
  if ¬ cfg.removeDuplicates then msgs else dedupGo [] msgs

/-- The `{'message': message, 'error': error}` entry collected for an
invalid record. -/
def invalidEntry (m : PyDict) (err : Option String) : PyDict :=
  [("message", .vDict m), ("error", err.elim .vNone .vStr)]

/-- The per-record loop of `validate_and_clean_batch` (before the final
deduplication pass). -/
def batchGo (lib : PyLib) (cfg : Config) :
    List PyDict → List PyDict × List PyDict
  | [] => ([], [])
  | m :: ms =>
    let rest := batchGo lib cfg ms
    match validateMessage lib cfg m with
    | (true, _) => (cleanMessage lib cfg m :: rest.1, rest.2)
    | (false, err) => (rest.1, invalidEntry m err :: rest.2)

/-- `DataValidator.validate_and_clean_batch`. -/
def validateAndCleanBatch (lib : PyLib) (cfg : Config) (msgs : List PyDict) :
    List PyDict × List PyDict :=
  let (valid, invalid) := batchGo lib cfg msgs
  (removeDuplicatesFromList cfg valid, invalid)

/-- The record's sender is flagged deleted: `sender_info` is a dict whose
`deleted` entry is truthy. -/
def senderDeleted (m : PyDict) : Prop :=
  ∃ si, dictGet m "sender_info" = some (.vDict si) ∧
    pyTruthy ((dictGet si "deleted").getD (.vBool false)) = true

/-- The validity condition exactly as the specification words it: the fields
`id`, `date` and `message` are present, the id is a positive integer, the
date parses as a timestamp, the text is a string of length within the
default bounds `[0, 10000]`, and — when deleted-user removal is enabled —
the sender is not flagged deleted. -/
def specValidC5 (lib : PyLib) (rdu : Bool) (m : PyDict) : Prop :=
  dictHas m "id" = true ∧ dictHas m "date" = true ∧
  dictHas m "message" = true ∧
  (∃ n : Int, dictGet m "id" = some (.vInt n) ∧ 0 < n) ∧
  (∃ s, dictGet m "date" = some (.vStr s) ∧ lib.dateOk (replaceZ s) = true) ∧
  (∃ t, dictGet m "message" = some (.vStr t) ∧
    0 ≤ t.length ∧ t.length ≤ 10000) ∧
  (rdu = true → ¬ senderDeleted m)

/-- A heap value for the aliasing analysis of `clean_message`: record fields
hold scalars or references to heap-allocated dictionaries (the nested
`sender_info` and media dicts), modelling Python object identity. -/
inductive HVal where
  | hInt : Int → HVal
  | hStr : String → HVal
  | hBool : Bool → HVal
  | hNone : HVal
  | hRef : Nat → HVal
deriving DecidableEq

/-- A dictionary whose values are heap values. -/
abbrev HDict := List (String × HVal)

/-- A heap: addresses bound to dictionary objects. -/
abbrev Heap := List (Nat × HDict)

/-- The object at address `a`. -/
def heapGet (h : Heap) (a : Nat) : Option HDict :=
  match h with
  | [] => none
  | (a2, d) :: rest => if a2 = a then some d else heapGet rest a

/-- The largest allocated address. -/
def heapMax : Heap → Nat
  | [] => 0
  | (a, _) :: rest => max a (heapMax rest)

/-- The next fresh address. -/
def freshAddr (h : Heap) : Nat :=
  heapMax h + 1

/-- Allocate a new dictionary object at a fresh address. -/
def heapAlloc (h : Heap) (d : HDict) : Heap × Nat :=
  ((freshAddr h, d) :: h, freshAddr h)

/-- `d[k]` / `d.get(k)` on a heap-valued dictionary. -/
def hdGet (d : HDict) (k : String) : Option HVal :=
  match d with
  | [] => none
  | (k2, v) :: rest => if k2 = k then some v else hdGet rest k

/-- `d[k] = v` on a heap-valued dictionary. -/
def hdSet (d : HDict) (k : String) (v : HVal) : HDict :=
  match d with
  | [] => [(k, v)]
  | (k2, v2) :: rest =>
    if k2 = k then (k2, v) :: rest else (k2, v2) :: hdSet rest k v

/-- `del d[k]` on a heap-valued dictionary. -/
def hdDel (d : HDict) (k : String) : HDict :=
  d.filter (fun kv => kv.1 ≠ k)

/-- `v is None` on a heap value. -/
def hIsNone : HVal → Bool
  | .hNone => true
  | _ => false

/-- `bool(v)` on a heap value, reading dictionary objects through the
heap. -/
def hTruthy (h : Heap) : HVal → Bool
  | .hNone => false
  | .hBool b => b
  | .hInt n => n ≠ 0
  | .hStr s => s ≠ ""
  | .hRef a => !((heapGet h a).getD []).isEmpty

/-- `DataValidator.validate_message` on the heap model (read-only: it
returns a verdict and touches no object). -/
def validateMessageH (lib : PyLib) (cfg : Config) (h : Heap) (m : HDict) :
    Bool × Option String :=
  if ¬ (hdGet m "id").isSome then
    (false, some "Отсутствует обязательное поле: id")
  else if ¬ (hdGet m "date").isSome then
    (false, some "Отсутствует обязательное поле: date")
  else if ¬ (hdGet m "message").isSome then
    (false, some "Отсутствует обязательное поле: message")
  else
    match hdGet m "id" with
    | some (.hInt n) =>
      if n ≤ 0 then (false, some "Неверный формат ID сообщения")
      else
        let dateBad :=
          cfg.validateDates &&
            (match hdGet m "date" with
             | some (.hStr s) => !(lib.dateOk (replaceZ s))
             | _ => false)
        if dateBad then (false, some "Неверный формат даты")
        else
          match (hdGet m "message").getD (.hStr "") with
          | .hStr t =>
            if t.length < cfg.minTextLength then
              (false, some "Текст слишком короткий")
            else if t.length > cfg.maxTextLength then
              (false, some "Текст слишком длинный")
            else if cfg.removeDeletedUsers then
              match hdGet m "sender_info" with
              | some (.hRef si) =>
                let del :=
                  (hdGet ((heapGet h si).getD []) "deleted").getD
                    (.hBool false)
                if hTruthy h del then
                  (false, some "Сообщение от удаленного пользователя")
                else (true, none)
              | some _ => (false, some "Ошибка валидации")
              | none => (true, none)
            else (true, none)
          | _ => (false, some "Текст сообщения должен быть строкой")
    | _ => (false, some "Неверный формат ID сообщения")

/-- The `sender_info` step of `clean_message`: the comprehension
`{k: v for k, v in sender_info.items() if v is not None}` builds a fresh
dictionary, which is then bound in the copy; the original `sender_info`
object is only read. -/
def senderStep (h : Heap) (c : HDict) : Heap × HDict :=
  match hdGet c "sender_info" with
  | some (.hRef si) =>
    let al := heapAlloc h
      (((heapGet h si).getD []).filter (fun kv => !hIsNone kv.2))
    (al.1, hdSet c "sender_info" (.hRef al.2))
  | _ => (h, c)

/-- The media-key loop of `clean_message`: falsy media entries are deleted
from the copy. -/
def mediaStep (h : Heap) (c : HDict) : HDict :=
  ["photo", "video", "audio", "document", "sticker"].foldl
    (fun c k =>
      match hdGet c k with
      | some v => if hTruthy h v then c else hdDel c k
      | none => c) c

/-- `DataValidator.clean_message` on the heap model: `cleaned` is
`message.copy()`, every write goes to the copy (allocated at a fresh
address at the end) or to the fresh pruned `sender_info`; no pre-existing
object is written. -/
def cleanMessageH (lib : PyLib) (cfg : Config) (h : Heap) (a : Nat) :
    Heap × Nat :=
  let msg := (heapGet h a).getD []
  let c1 :=
    match hdGet msg "message" with
    | some (.hStr t) => hdSet msg "message" (.hStr (cleanText lib cfg t))
    | _ => msg
  let c2 :=
    match hdGet c1 "date" with
    | some (.hStr s) =>
      match lib.isoNorm (replaceZ s) with
      | some s2 => hdSet c1 "date" (.hStr s2)
      | none => c1
    | _ => c1
  let p := senderStep h c2
  let c3 := mediaStep p.1 p.2
  heapAlloc p.1 c3

/-- The `message.get('id')` value on the heap model. -/
def idOfH (h : Heap) (a : Nat) : HVal :=
  (hdGet ((heapGet h a).getD []) "id").getD .hNone

/-- The loop of `remove_duplicates_from_list` on the heap model
(read-only). -/
def dedupGoH (h : Heap) : List HVal → List Nat → List Nat
  | _, [] => []
  | seen, a :: rest =>
    if hTruthy h (idOfH h a) then
      if idOfH h a ∈ seen then dedupGoH h seen rest
      else a :: dedupGoH h (idOfH h a :: seen) rest
    else a :: dedupGoH h seen rest

/-- The loop of `validate_and_clean_batch` on the heap model: a valid
record is cleaned (a fresh copy), an invalid one is wrapped in a fresh
`\x7b'message': message, 'error': error\x7d` dictionary referencing it. -/
def batchGoH (lib : PyLib) (cfg : Config) :
    Heap → List Nat → Heap × List Nat × List Nat
  | h, [] => (h, [], [])
  | h, a :: rest =>
    let v := validateMessageH lib cfg h ((heapGet h a).getD [])
    if v.1 then
      let p := cleanMessageH lib cfg h a
      let r := batchGoH lib cfg p.1 rest
      (r.1, p.2 :: r.2.1, r.2.2)
    else
      let w := heapAlloc h [("message", .hRef a),
        ("error", match v.2 with
          | some e => .hStr e
          | none => .hNone)]
      let r := batchGoH lib cfg w.1 rest
      (r.1, r.2.1, w.2 :: r.2.2)

/-- `DataValidator.validate_and_clean_batch` on the heap model. -/
def validateAndCleanBatchH (lib : PyLib) (cfg : Config) (h : Heap)
    (as2 : List Nat) : Heap × List Nat × List Nat :=
  let r := batchGoH lib cfg h as2
  (r.1,
    (if ¬ cfg.removeDuplicates then r.2.1 else dedupGoH r.1 [] r.2.1),
    r.2.2)

/-- A two-object example heap: record 1 references sender dict 2. -/
def exH : Heap :=
  [(1, [("id", .hInt 5), ("date", .hStr "2025-07-20"),
        ("message", .hStr "hi"), ("sender_info", .hRef 2)]),
   (2, [("first_name", .hStr "A"), ("last_name", .hNone)])]

/-- The sender dictionary of the example heap. -/
def exSD : HDict :=
  [("first_name", .hStr "A"), ("last_name", .hNone)]

end DataValidator

/-- A concrete instantiation of the standard-library parameters, used by the
closed witness statements: every date string parses and normalizes to
itself, HTML unescaping is the identity. -/
def lib0 : PyLib :=
  { dateOk := fun _ => true, isoNorm := fun s => some s,
    unescapeHtml := fun s => s, parseDate := fun _ => some 0,
    md5 := fun s => s,
    guessExt := fun m => if m = "text/plain" then some ".txt" else none }

/-- A concrete well-formed record with a `sender_info` dict. -/
def mC5 : PyDict :=
  [("id", .vInt 7), ("date", .vStr "2024-01-02T03:04:05Z"),
   ("message", .vStr "hello world"),
   ("sender_info", .vDict [("id", .vInt 5), ("deleted", .vBool false)])]

/-- First of two records sharing id 1; carries a `sender_info`. -/
def rC6a : PyDict :=
  [("id", .vInt 1), ("date", .vStr "2024-01-01T00:00:00"),
   ("message", .vStr "first"),
   ("sender_info", .vDict [("id", .vInt 5)])]

/-- Second record with the same id 1 and no `sender_info`. -/
def rC6b : PyDict :=
  [("id", .vInt 1), ("date", .vStr "2024-01-01T00:00:00"),
   ("message", .vStr "second")]

namespace ContentFilter

/-- A filter-configuration value, typed by the shapes the nine filters
consume: a string allow-list, a list of regex matchers (each regular
expression is embedded as the predicate `re.search(pattern, text,
re.IGNORECASE)` induces on the text), a date-range dict, an integer
allow-list, an integer threshold, or an optional boolean. -/
inductive CVal where
  | strs : List String → CVal
  | matchers : List (String → Bool) → CVal
  | range : List (String × String) → CVal
  | ints : List Int → CVal
  | int : Int → CVal
  | boolOpt : Option Bool → CVal

/-- `len` of a Python value: defined for strings, lists and dicts, a
`TypeError` otherwise. -/
def pyLen : PyVal → Except Unit Nat
  | .vStr s => .ok s.length
  | .vList l => .ok l.length
  | .vDict d => .ok d.length
  | _ => .error ()

/-- `ContentFilter._filter_by_media_type`: at least one allowed type is
exposed by the message (empty allow-list passes; an unknown type name
defaults to `False`). -/
def filterByMediaType (m : PyDict) (allowed : List String) : Bool :=
  if allowed.isEmpty then true
  else
    let mediaTypes : List (String × Bool) :=
      [("text", pyTruthy ((dictGet m "message").getD .vNone)),
       ("photo", pyTruthy ((dictGet m "photo").getD .vNone)),
       ("video", pyTruthy ((dictGet m "video").getD .vNone)),
       ("audio", pyTruthy ((dictGet m "audio").getD .vNone)),
       ("document", pyTruthy ((dictGet m "document").getD .vNone)),
       ("sticker", pyTruthy ((dictGet m "sticker").getD .vNone)),
       ("voice", pyTruthy ((dictGet m "voice").getD .vNone)),
       ("video_note", pyTruthy ((dictGet m "video_note").getD .vNone)),
       ("contact", pyTruthy ((dictGet m "contact").getD .vNone)),
       ("location", pyTruthy ((dictGet m "geo").getD .vNone)),
       ("poll", pyTruthy ((dictGet m "poll").getD .vNone)),
       ("game", pyTruthy ((dictGet m "game").getD .vNone))]
    allowed.any (fun t => (mediaTypes.lookup t).getD false)

/-- `ContentFilter._filter_by_text_patterns`: empty pattern list passes,
falsy text fails, otherwise any pattern may match; `re.search` on a truthy
non-string raises. -/
def filterByTextPatterns (m : PyDict) (patterns : List (String → Bool)) :
    Except Unit Bool :=
  if patterns.isEmpty then .ok true
  else
    let tv := (dictGet m "message").getD (.vStr "")
    if ¬ pyTruthy tv then .ok false
    else
      match tv with
      | .vStr s => .ok (patterns.any (fun p => p s))
      | _ => .error ()

/-- `ContentFilter._filter_by_date_range`: empty range passes; otherwise the
message date (after `Z` replacement) and any given bounds must parse, and
the date must lie inclusively between them; a parse failure raises. -/
def filterByDateRange (lib : PyLib) (m : PyDict)
    (r : List (String × String)) : Except Unit Bool :=
  if r.isEmpty then .ok true
  else do
    let ds ← (match (dictGet m "date").getD (.vStr "") with
              | .vStr s => .ok s
              | _ => .error ())
    let md ← (match lib.parseDate (replaceZ ds) with
              | some t => .ok t
              | none => .error ())
    let start? ← (match r.lookup "start" with
                  | some s =>
                    match lib.parseDate s with
                    | some t => .ok (some t)
                    | none => .error ()
                  | none => .ok none)
    let end? ← (match r.lookup "end" with
                | some s =>
                  match lib.parseDate s with
                  | some t => .ok (some t)
                  | none => .error ()
                | none => .ok none)
    .ok ((match start? with
          | none => true
          | some st => decide (st ≤ md)) &&
         (match end? with
          | none => true
          | some en => decide (md ≤ en)))

/-- `ContentFilter._filter_by_sender`: empty allow-list passes; otherwise
`sender_info.get('id')` must be one of the allowed integer ids
(`sender_info.get` on a non-dict raises). -/
def filterBySender (m : PyDict) (senderIds : List Int) : Except Unit Bool :=
  if senderIds.isEmpty then .ok true
  else
    match (dictGet m "sender_info").getD (.vDict []) with
    | .vDict si =>
      .ok (match dictGet si "id" with
           | some (.vInt n) => senderIds.contains n
           | _ => false)
    | _ => .error ()

/-- `ContentFilter._filter_by_length`: a zero (falsy) threshold passes;
otherwise the text length must reach the threshold (`len` raises on values
without a length). -/
def filterByLength (m : PyDict) (minLength : Int) : Except Unit Bool :=
  if minLength = 0 then .ok true
  else do
    let n ← pyLen ((dictGet m "message").getD (.vStr ""))
    .ok (decide (minLength ≤ (n : Int)))

/-- `p` holds of some suffix of the character list (the way `re.search`
scans every starting position). -/
def anySuffix (p : List Char → Bool) : List Char → Bool
  | [] => p []
  | c :: s => p (c :: s) || anySuffix p (s)

/-- The list starts with a non-whitespace character (one `\S`). -/
def nonSpaceHead : List Char → Bool
  | c :: _ => !isPySpace c
  | [] => false

/-- A match of `https?://\S+|www\.\S+` starts here. -/
def urlAt (s : List Char) : Bool :=
  (leadsWith "http://".data s && nonSpaceHead (s.drop 7)) ||
  (leadsWith "https://".data s && nonSpaceHead (s.drop 8)) ||
  (leadsWith "www.".data s && nonSpaceHead (s.drop 4))

/-- `re.search(r'https?://\S+|www\.\S+', text)` succeeds. -/
def hasUrl (s : String) : Bool :=
  anySuffix urlAt s.data

/-- An ASCII `\w` word character. -/
def isWordChar (c : Char) : Bool :=
  c.isAlphanum || c == '_'

/-- A match of `@\w+` starts here. -/
def mentionAt : List Char → Bool
  | '@' :: c :: _ => isWordChar c
  | _ => false

/-- `re.search(r'@\w+', text)` succeeds. -/
def hasMention (s : String) : Bool :=
  anySuffix mentionAt s.data

/-- `ContentFilter._filter_by_links`: `None` passes; otherwise link presence
in the text must equal the requested boolean (`re.search` raises on a
non-string). -/
def filterByLinks (m : PyDict) (hasLinksReq : Option Bool) :
    Except Unit Bool :=
  match hasLinksReq with
  | none => .ok true
  | some b =>
    match (dictGet m "message").getD (.vStr "") with
    | .vStr s => .ok (hasUrl s == b)
    | _ => .error ()

/-- `ContentFilter._filter_by_mentions`: `None` passes; otherwise mention
presence must equal the requested boolean. -/
def filterByMentions (m : PyDict) (req : Option Bool) : Except Unit Bool :=
  match req with
  | none => .ok true
  | some b =>
    match (dictGet m "message").getD (.vStr "") with
    | .vStr s => .ok (hasMention s == b)
    | _ => .error ()

/-- `ContentFilter._filter_by_forwarded`: `None` passes; otherwise the
truthiness of `fwd_from` must equal the requested boolean. -/
def filterByForwarded (m : PyDict) (req : Option Bool) : Bool :=
  match req with
  | none => true
  | some b => pyTruthy ((dictGet m "fwd_from").getD .vNone) == b

/-- `ContentFilter._filter_by_edited`: `None` passes; otherwise the
truthiness of `edit_date` must equal the requested boolean. -/
def filterByEdited (m : PyDict) (req : Option Bool) : Bool :=
  match req with
  | none => true
  | some b => pyTruthy ((dictGet m "edit_date").getD .vNone) == b

/-- Dispatch through the `self.filters` registry of `ContentFilter.__init__`:
`none` for a key that is not one of the nine registered filter names, the
filter's verdict otherwise (a configuration value of the wrong shape for its
key raises, as the Python filter body would). -/
def evalFilter (lib : PyLib) (m : PyDict) (k : String) (v : CVal) :
    Option (Except Unit Bool) :=
  if k = "media_types" then
    some (match v with
          | .strs l => .ok (filterByMediaType m l)
          | _ => .error ())
  else if k = "text_patterns" then
    some (match v with
          | .matchers l => filterByTextPatterns m l
          | _ => .error ())
  else if k = "date_range" then
    some (match v with
          | .range r => filterByDateRange lib m r
          | _ => .error ())
  else if k = "sender_ids" then
    some (match v with
          | .ints l => filterBySender m l
          | _ => .error ())
  else if k = "min_length" then
    some (match v with
          | .int n => filterByLength m n
          | _ => .error ())
  else if k = "has_links" then
    some (match v with
          | .boolOpt b => filterByLinks m b
          | _ => .error ())
  else if k = "has_mentions" then
    some (match v with
          | .boolOpt b => filterByMentions m b
          | _ => .error ())
  else if k = "is_forwarded" then
    some (match v with
          | .boolOpt b => .ok (filterByForwarded m b)
          | _ => .error ())
  else if k = "is_edited" then
    some (match v with
          | .boolOpt b => .ok (filterByEdited m b)
          | _ => .error ())
  else none

/-- A key is one of the nine registered filter names. -/
def recognizedKey (k : String) : Bool :=
  k == "media_types" || k == "text_patterns" || k == "date_range" ||
  k == "sender_ids" || k == "min_length" || k == "has_links" ||
  k == "has_mentions" || k == "is_forwarded" || k == "is_edited"

/-- `ContentFilter.apply_filters`: iterate the configuration entries in
insertion order, skip unrecognized keys, and return `False` at the first
failing recognized filter. -/
def applyFilters (lib : PyLib) (m : PyDict) :
    List (String × CVal) → Except Unit Bool
  | [] => .ok true
  | (k, v) :: rest =>
    match evalFilter lib m k v with
    | none => applyFilters lib m rest
    | some r => do
      let b ← r
      if b then applyFilters lib m rest else .ok false

end ContentFilter

/-- The filter configuration `min_length=10, has_links=True` of the worked
example. -/
def cfgC7 : List (String × ContentFilter.CVal) :=
  [("min_length", .int 10), ("has_links", .boolOpt (some true))]

/-- A record whose text is a 5-character link-only string. -/
def mC7reject : PyDict :=
  [("id", .vInt 1), ("message", .vStr "www.x")]

/-- A record whose 20-character text contains `http://example.com`. -/
def mC7accept : PyDict :=
  [("id", .vInt 2), ("message", .vStr "a http://example.com")]

namespace MediaDownloader

/-- The document attributes `_extract_media_info` inspects. -/
inductive DocAttr where
  | fileNameAttr : String → DocAttr
  | videoAttr : Int → Int → Int → DocAttr
  | audioAttr : Bool → Int → Option String → Option String → DocAttr
  | imageSizeAttr : Int → Int → DocAttr

/-- The media payload of a message, as the four `isinstance` branches of
`_extract_media_info` see it (photo metadata, document with MIME type, size,
date and attributes, contact, geo point; anything else falls through to
`None`). Geographic coordinates are abstracted to integers — no claim
depends on their values. -/
inductive Media where
  | photo : String → Nat → Media
  | document : String → Int → String → List DocAttr → Media
  | contact : String → String → String → Int → Media
  | geo : Int → Int → Media
  | otherMedia : Media

/-- The `media_info` dict produced by `_extract_media_info`. -/
structure MediaInfo where
  type : String
  filename : Option String := none
  extension : Option String := none
  metadata : PyDict := []

/-- A `DocumentAttributeAudio` whose `voice` flag is set. -/
def isVoiceAudio : DocAttr → Bool
  | .audioAttr v _ _ _ => v
  | _ => false

/-- The first `DocumentAttributeFilename`, if any. -/
def firstFilename : List DocAttr → Option String
  | [] => none
  | .fileNameAttr n :: _ => some n
  | _ :: rest => firstFilename rest

/-- An optional string as the Python attribute value (`None` when absent). -/
def optStr (o : Option String) : PyVal :=
  o.elim .vNone .vStr

/-- The metadata dict a document produces: MIME type, size and date, then
updated by the video/audio/image-size attributes in order. -/
def docMetadata (mime : String) (size : Int) (date : String)
    (attrs : List DocAttr) : PyDict :=
  attrs.foldl
    (fun md a =>
      match a with
      | .videoAttr d w h =>
        dictSet (dictSet (dictSet md "duration" (.vInt d)) "width" (.vInt w))
          "height" (.vInt h)
      | .audioAttr _ d t p =>
        dictSet (dictSet (dictSet md "duration" (.vInt d)) "title" (optStr t))
          "performer" (optStr p)
      | .imageSizeAttr w h =>
        dictSet (dictSet md "width" (.vInt w)) "height" (.vInt h)
      | .fileNameAttr _ => md)
    [("mime_type", .vStr mime), ("size", .vInt size), ("date", .vStr date)]

/-- `MediaDownloader._get_file_extension_from_mime`. -/
def getFileExtensionFromMime (lib : PyLib) (mime : String) : String :=
  (lib.guessExt mime).getD ".bin"

/-- `MediaDownloader._extract_media_info`. The convoluted audio guard
(`'voice' in mime_type or document.attributes`, then a `for`-`else` scan)
reduces to: `voice` exactly when some audio attribute carries a true voice
flag, else `audio` — when the guard is false the attribute list is empty, so
no voice attribute exists either way. -/
def extractMediaInfo (lib : PyLib) : Media → Option MediaInfo
  | .photo date sizes =>
    some { type := "photo", extension := some ".jpg",
           metadata := [("date", .vStr date), ("sizes", .vInt (sizes : Int))] }
  | .document mime size date attrs =>
    let mediaType :=
      if strStartsWith mime "image/" then "photo"
      else if strStartsWith mime "video/" then "video"
      else if strStartsWith mime "audio/" then
        if attrs.any isVoiceAudio then "voice" else "audio"
      else if strStartsWith mime "application/" then "document"
      else "document"
    some { type := mediaType, filename := firstFilename attrs,
           extension := some (getFileExtensionFromMime lib mime),
           metadata := docMetadata mime size date attrs }
  | .contact ph fn ln uid =>
    some { type := "contact",
           metadata := [("phone_number", .vStr ph), ("first_name", .vStr fn),
                        ("last_name", .vStr ln), ("user_id", .vInt uid)] }
  | .geo lat lon =>
    some { type := "location",
           metadata := [("latitude", .vInt lat), ("longitude", .vInt lon)] }
  | .otherMedia => none

/-- The extension of the part after the last dot, lowercased, with the dot
prepended (`'.' + original_filename.rsplit('.', 1)[-1].lower()`). -/
def extAfterLastDot (o : String) : String :=
  "." ++ String.mk
    (((o.data.reverse.takeWhile (fun c => c ≠ '.')).reverse).map Char.toLower)

/-- `MediaDownloader._get_default_extension`. -/
def defaultExtension (mediaType : String) : String :=
  if mediaType = "photo" then ".jpg"
  else if mediaType = "video" then ".mp4"
  else if mediaType = "audio" then ".mp3"
  else if mediaType = "voice" then ".ogg"
  else if mediaType = "sticker" then ".webp"
  else if mediaType = "document" then ".bin"
  else ".bin"

/-- A truthy optional string (`if extension:`). -/
def optStrTruthy : Option String → Bool
  | some e => e != ""
  | none => false

/-- A truthy original filename containing a dot
(`original_filename and '.' in original_filename`). -/
def origUsable : Option String → Bool
  | some o => o != "" && o.data.contains '.'
  | none => false

/-- `MediaDownloader._generate_filename`: the message id, then the truthy
explicit extension argument, else the original filename's extension when the
name is truthy and contains a dot, else the per-kind default. -/
def generateFilename (mediaType : String) (originalFilename : Option String)
    (extension : Option String) (messageId : Int) : String :=
  let filename := toString messageId
  if optStrTruthy extension then
    filename ++ extension.getD ""
  else if origUsable originalFilename then
    filename ++ extAfterLastDot (originalFilename.getD "")
  else
    filename ++ defaultExtension mediaType

/-- The per-kind subdirectory of `MediaDownloader.__init__` (the `subdirs`
table); every type `_extract_media_info` produces has an entry. -/
def subdirName (t : String) : String :=
  if t = "photo" then "photos"
  else if t = "video" then "videos"
  else if t = "audio" then "audio"
  else if t = "document" then "documents"
  else if t = "voice" then "voice"
  else if t = "sticker" then "stickers"
  else if t = "contact" then "contacts"
  else if t = "location" then "locations"
  else ""

/-- The on-disk state under the media directory: path to file contents
(bytes abstracted as a string). A write shadows any earlier entry. -/
abbrev FS := List (String × String)

/-- Does `path` exist, and with what contents. -/
def fsLookup : FS → String → Option String
  | [], _ => none
  | (q, c) :: rest, p => if q = p then some c else fsLookup rest p

/-- Persist a file. -/
def fsInsert (fs : FS) (p c : String) : FS :=
  (p, c) :: fs

/-- A message as `download_media` sees it. -/
structure MMsg where
  id : Int
  media : Option Media

/-- The target path `download_media` computes (relative to the media
directory, whose constant absolute prefix is omitted). -/
def mediaPath (msg : MMsg) (info : MediaInfo) : String :=
  subdirName info.type ++ "/" ++
    generateFilename info.type info.filename info.extension msg.id

/-- The descriptor returned when the target path already exists. -/
def alreadyExistsResult (lib : PyLib) (info : MediaInfo) (path content : String) :
    PyDict :=
  [("type", .vStr info.type), ("file_path", .vStr path),
   ("file_size", .vInt (content.length : Int)),
   ("file_hash", .vStr (lib.md5 content)),
   ("downloaded", .vBool false), ("reason", .vStr "already_exists")]

/-- The descriptor returned after a fresh fetch. -/
def downloadedResult (lib : PyLib) (info : MediaInfo) (path content : String) :
    PyDict :=
  [("type", .vStr info.type), ("file_path", .vStr path),
   ("file_size", .vInt (content.length : Int)),
   ("file_hash", .vStr (lib.md5 content)),
   ("downloaded", .vBool true), ("metadata", .vDict info.metadata)]

/-- `MediaDownloader.download_media`: no media or unextractable media gives
`None`; an existing target path short-circuits with `already_exists` and no
fetch; otherwise the fetch result (`fetch` models what
`message.download_media` returns, `none` on failure) is persisted at the
target path and reported as freshly downloaded. -/
def downloadMedia (lib : PyLib) (fs : FS) (msg : MMsg)
    (fetch : Option String) : FS × Option PyDict :=
  match msg.media with
  | none => (fs, none)
  | some md =>
    match extractMediaInfo lib md with
    | none => (fs, none)
    | some info =>
      let path := mediaPath msg info
      match fsLookup fs path with
      | some content => (fs, some (alreadyExistsResult lib info path content))
      | none =>
        match fetch with
        | none => (fs, none)
        | some content =>
          (fsInsert fs path content,
           some (downloadedResult lib info path content))

/-- The extension-resolution order exactly as the C3 claim words it:
explicit override, else the original filename's extension, else the
MIME-type-derived extension, else the per-kind default. -/
def specExtOrderC3 (lib : PyLib) (explicitOverride : Option String)
    (orig : Option String) (mime : Option String) (kind : String) : String :=
  match explicitOverride with
  | some e => e
  | none =>
    if (match orig with
        | some o => o.data.contains '.'
        | none => false) then
      extAfterLastDot (orig.getD "")
    else
      match mime.bind lib.guessExt with
      | some e => e
      | none => defaultExtension kind

/-- The amended resolution order: truthy explicit argument (which the
pipeline always sets for photos and documents, MIME-derived for the
latter), else the original filename's extension, else the per-kind
default. -/
def specExtAmended (explicitOverride orig : Option String) (kind : String) :
    String :=
  if optStrTruthy explicitOverride then
    explicitOverride.getD ""
  else if origUsable orig then
    extAfterLastDot (orig.getD "")
  else
    defaultExtension kind

end MediaDownloader

/-- The document media of the C3 counterexample: plain-text MIME type with a
declared original filename `notes.md`. -/
def mdC3 : MediaDownloader.Media :=
  .document "text/plain" 100 "2024-01-01" [.fileNameAttr "notes.md"]

/-- A photo message for the C4 witness. -/
def msgC4 : MediaDownloader.MMsg :=
  { id := 3, media := some (.photo "2024-01-01" 2) }

/-- The media info `_extract_media_info` yields for `msgC4`. -/
def infoC4 : MediaDownloader.MediaInfo :=
  { type := "photo", extension := some ".jpg",
    metadata := [("date", .vStr "2024-01-01"), ("sizes", .vInt 2)] }

/-- The media info `_extract_media_info` yields for the C3 document. -/
def infoC3 : MediaDownloader.MediaInfo :=
  { type := "document", filename := some "notes.md",
    extension := some (MediaDownloader.getFileExtensionFromMime lib0
      "text/plain"),
    metadata := MediaDownloader.docMetadata "text/plain" 100 "2024-01-01"
      [.fileNameAttr "notes.md"] }

namespace Downloader

/-- The three `isinstance` branches the sender-info block distinguishes. -/
inductive SenderKind where
  | user : SenderKind
  | chatOrChannel : SenderKind
  | otherKind : SenderKind

/-- A message sender as `download_chat` reads it. -/
structure Sender where
  id : Int
  kind : SenderKind
  firstName : Option String := none
  lastName : Option String := none
  username : Option String := none
  title : Option String := none

/-- The `sender_info` dict built in the message loop of `download_chat`:
empty without a sender, id plus user fields for a `User`, id plus title for
a `Chat`/`Channel`, bare id otherwise. -/
def senderInfoDict : Option Sender → PyDict
  | none => []
  | some s =>
    match s.kind with
    | .user =>
      [("id", .vInt s.id), ("type", .vStr "User"),
       ("first_name", MediaDownloader.optStr s.firstName),
       ("last_name", MediaDownloader.optStr s.lastName),
       ("username", MediaDownloader.optStr s.username)]
    | .chatOrChannel =>
      [("id", .vInt s.id), ("type", .vStr "Channel"),
       ("title", MediaDownloader.optStr s.title)]
    | .otherKind => [("id", .vInt s.id)]

/-- A message yielded by the Telethon iterator: its id attribute, its
`to_dict()` form, and its sender. -/
structure TMsg where
  id : Int
  toDict : PyDict
  sender : Option Sender := none

/-- `message_dict["sender_info"] = sender_info`. -/
def mergedDict (m : TMsg) : PyDict :=
  dictSet m.toDict "sender_info" (.vDict (senderInfoDict m.sender))

/-- The externally observable persistence events of `download_chat`:
a checkpoint write (`save_progress` with the batch's last record id and the
cumulative count), the export of the validated records to the output files,
and the checkpoint removal (`mark_completed`). Logging and the validation
report, which touch neither the output sink nor the checkpoint, are not
modelled. -/
inductive Event where
  | save : PyVal → Nat → Event
  | exportRecords : List PyDict → Event
  | complete : Event

/-- The skip guard `if resume and resume_point: if message.id <=
resume_point` — note an integer checkpoint of 0 is falsy and disables
skipping. -/
def skipByResume (resume : Bool) (rp : Option Int) (i : Int) : Bool :=
  resume &&
    (match rp with
     | some c => decide (c ≠ 0) && decide (i ≤ c)
     | none => false)

/-- `batch[-1]['id']`. -/
def lastId (batch : List PyDict) : PyVal :=
  match batch.getLast? with
  | some r => (dictGet r "id").getD .vNone
  | none => .vNone

/-- The message loop of `download_chat` (the media-download branch of
`_process_batch` disabled, under which `_process_batch` returns the batch
unchanged): falsy messages are skipped, then the resume guard, then the
sender-info merge and the content filter (whose exception would abort the
export), then batching; a full batch is appended to the in-memory `messages`
list, counted, and — when resuming — checkpointed via `save_progress` with
the batch's last record id; the trailing partial batch is appended without a
checkpoint. Returns the accumulated records, the total count, and the event
trace. -/
def dcGo (lib : PyLib) (fcfg : List (String × ContentFilter.CVal))
    (resume : Bool) (rp : Option Int) (bs : Nat) :
    List (Option TMsg) → List PyDict → List PyDict → Nat →
    Except Unit (List PyDict × Nat × List Event)
  | [], batch, acc, total =>
    if batch.isEmpty then .ok (acc, total, [])
    else .ok (acc ++ batch, total + batch.length, [])
  | none :: rest, batch, acc, total =>
    dcGo lib fcfg resume rp bs rest batch acc total
  | some m :: rest, batch, acc, total =>
    if skipByResume resume rp m.id then
      dcGo lib fcfg resume rp bs rest batch acc total
    else do
      let md := mergedDict m
      let ok ← ContentFilter.applyFilters lib md fcfg
      if ok then
        let batch' := batch ++ [md]
        if bs ≤ batch'.length then do
          let res ← dcGo lib fcfg resume rp bs rest [] (acc ++ batch')
            (total + batch'.length)
          .ok (res.1, res.2.1,
            (if resume then [Event.save (lastId batch')
              (total + batch'.length)] else []) ++ res.2.2)
        else dcGo lib fcfg resume rp bs rest batch' acc total
      else dcGo lib fcfg resume rp bs rest batch acc total

/-- `TelegramDownloader.download_chat` after the chat is resolved: run the
message loop, validate and clean the accumulated records, export the valid
set (only when non-empty), and clear the checkpoint (only when resuming).
The records are written to the output sink by this single export call at the
very end of the run. -/
def downloadChat (lib : PyLib) (fcfg : List (String × ContentFilter.CVal))
    (vcfg : DataValidator.Config) (resume : Bool) (rp : Option Int)
    (bs : Nat) (msgs : List (Option TMsg)) :
    Except Unit (List PyDict × Nat × List Event) := do
  let res ← dcGo lib fcfg resume rp bs msgs [] [] 0
  let vb := DataValidator.validateAndCleanBatch lib vcfg res.1
  .ok (res.1, res.2.1,
    res.2.2 ++ (if vb.1.isEmpty then [] else [Event.exportRecords vb.1]) ++
      (if resume then [Event.complete] else []))

/-- The records durably present in the output sink after a trace prefix. -/
def sinkAfter (tr : List Event) : List PyDict :=
  tr.foldl
    (fun s e =>
      match e with
      | .exportRecords rs => s ++ rs
      | _ => s) []

/-- A checkpoint-write event. -/
def isSaveEvent : Event → Bool
  | .save _ _ => true
  | _ => false

/-- The C1 ordering property exactly as claimed: whenever the checkpoint is
advanced to id `i`, a record with id `i` is already durably written to the
output sink. -/
def writeThenCheckpoint (tr : List Event) : Prop :=
  ∀ k i n, tr.get? k = some (.save i n) →
    ∃ r ∈ sinkAfter (tr.take k), dictGet r "id" = some i

/-- A stream element that survives resuming past cursor `c`: a falsy
message, or one whose id exceeds `c`. -/
def keepAfter (c : Int) : Option TMsg → Bool
  | some m => decide (c < m.id)
  | none => true

end Downloader

/-- A two-message chat for the C1 counterexample. -/
def mC1a : Downloader.TMsg :=
  { id := 1,
    toDict := [("id", .vInt 1), ("date", .vStr "2024-01-01T00:00:00"),
               ("message", .vStr "a")] }

/-- Second message of the C1 counterexample chat. -/
def mC1b : Downloader.TMsg :=
  { id := 2,
    toDict := [("id", .vInt 2), ("date", .vStr "2024-01-01T00:00:00"),
               ("message", .vStr "b")] }

/-- The C1 counterexample input stream. -/
def msgsC1 : List (Option Downloader.TMsg) :=
  [some mC1a, some mC1b]

/-- The accumulated records of the C1 counterexample run. -/
def accC1 : List PyDict :=
  [Downloader.mergedDict mC1a, Downloader.mergedDict mC1b]

/-- The full event trace of the C1 counterexample run (batch size 1): two
checkpoint saves, then the single export, then completion. -/
def trC1 : List Downloader.Event :=
  [.save (.vInt 1) 1, .save (.vInt 2) 2,
   .exportRecords (DataValidator.validateAndCleanBatch lib0 {} accC1).1,
   .complete]

/-- A message with the given positive id for the C2 witness chat. -/
def mkTMsg (i : Nat) : Downloader.TMsg :=
  { id := (i : Int),
    toDict := [("id", .vInt (i : Int)),
               ("date", .vStr "2024-01-01T00:00:00"),
               ("message", .vStr "m")] }

/-- The C2 witness chat: records with ids 1 through 100. -/
def msgs100 : List (Option Downloader.TMsg) :=
  (List.range 100).map (fun i => some (mkTMsg (i + 1)))

namespace StreamJson

/-- A JSON value as the export writes it: the records are dictionaries of
strings, integers, booleans, nulls, and nested lists/objects (floating-point
numbers do not occur in the modelled records). -/
inductive Json where
  | jNull : Json
  | jBool : Bool → Json
  | jInt : Int → Json
  | jStr : List Char → Json
  | jArr : List Json → Json
  | jObj : List (List Char × Json) → Json

/-- The decimal digit character for `n < 10`. -/
def digitChar (n : Nat) : Char :=
  Char.ofNat (48 + n)

/-- The decimal representation of a natural number, most significant digit
first. -/
def natSer (n : Nat) : List Char :=
  if _h : n < 10 then [digitChar n]
  else natSer (n / 10) ++ [digitChar (n % 10)]
termination_by n
decreasing_by
  exact Nat.div_lt_self (by omega) (by omega)

/-- The decimal representation of an integer. -/
def intSer (n : Int) : List Char :=
  if n < 0 then '-' :: natSer (-n).toNat else natSer n.toNat

/-- The lowercase hexadecimal digit for `n < 16`. -/
def hexDigitChar (n : Nat) : Char :=
  if n < 10 then Char.ofNat (48 + n) else Char.ofNat (87 + n)

/-- How `json.dumps` with `ensure_ascii=False` escapes one character:
quote, backslash and the short control escapes as two-character sequences,
the remaining control characters as `\u00XX`, everything else literally. -/
def escChar (c : Char) : List Char :=
  if c = '"' then ['\\', '"']
  else if c = '\\' then ['\\', '\\']
  else if c = '\n' then ['\\', 'n']
  else if c = '\t' then ['\\', 't']
  else if c = '\r' then ['\\', 'r']
  else if c = '\x08' then ['\\', 'b']
  else if c = '\x0c' then ['\\', 'f']
  else if c.toNat < 0x20 then
    ['\\', 'u', '0', '0', hexDigitChar (c.toNat / 16),
     hexDigitChar (c.toNat % 16)]
  else [c]

/-- The escaped body of a JSON string. -/
def escStr (s : List Char) : List Char :=
  s.foldr (fun c acc => escChar c ++ acc) []

mutual

/-- Compact serialization, as `json.dumps(m, ensure_ascii=False,
separators=(',', ':'))` in `_write_batch` produces it. -/
def ser : Json → List Char
  | .jNull => ['n', 'u', 'l', 'l']
  | .jBool true => ['t', 'r', 'u', 'e']
  | .jBool false => ['f', 'a', 'l', 's', 'e']
  | .jInt n => intSer n
  | .jStr s => '"' :: escStr s ++ ['"']
  | .jArr xs => '[' :: serItems xs ++ [']']
  | .jObj kvs => '\x7b' :: serKVs kvs ++ ['\x7d']

/-- Comma-joined compact array items. -/
def serItems : List Json → List Char
  | [] => []
  | [x] => ser x
  | x :: y :: rest => ser x ++ ',' :: serItems (y :: rest)

/-- Comma-joined compact object entries (`"key":value`). -/
def serKVs : List (List Char × Json) → List Char
  | [] => []
  | [(k, v)] => '"' :: escStr k ++ '"' :: ':' :: ser v
  | (k, v) :: kv2 :: rest =>
    '"' :: escStr k ++ '"' :: ':' :: ser v ++ ',' :: serKVs (kv2 :: rest)

end

/-- Two spaces of indentation per level (`indent=2`). -/
def indChars (lvl : Nat) : List Char :=
  List.replicate (2 * lvl) ' '

mutual

/-- Indented serialization, as `json.dumps(data, indent=2,
ensure_ascii=False)` in `export_json` produces it: `lvl` is the level at
which the value's closing bracket sits. -/
def serP : Nat → Json → List Char
  | _, .jNull => ['n', 'u', 'l', 'l']
  | _, .jBool true => ['t', 'r', 'u', 'e']
  | _, .jBool false => ['f', 'a', 'l', 's', 'e']
  | _, .jInt n => intSer n
  | _, .jStr s => '"' :: escStr s ++ ['"']
  | _, .jArr [] => ['[', ']']
  | lvl, .jArr (x :: xs) =>
    '[' :: '\n' :: (indChars (lvl + 1) ++ serPItems (lvl + 1) (x :: xs)) ++
      '\n' :: indChars lvl ++ [']']
  | _, .jObj [] => ['\x7b', '\x7d']
  | lvl, .jObj (kv :: kvs) =>
    '\x7b' :: '\n' :: (indChars (lvl + 1) ++ serPKVs (lvl + 1) (kv :: kvs)) ++
      '\n' :: indChars lvl ++ ['\x7d']

/-- Indented array items, separated by `,\n` plus indentation (the first
item's own indentation is emitted by the enclosing bracket case). -/
def serPItems : Nat → List Json → List Char
  | _, [] => []
  | lvl, [x] => serP lvl x
  | lvl, x :: y :: rest =>
    serP lvl x ++ ',' :: '\n' :: (indChars lvl ++ serPItems lvl (y :: rest))

/-- Indented object entries (`"key": value`). -/
def serPKVs : Nat → List (List Char × Json) → List Char
  | _, [] => []
  | lvl, [(k, v)] => '"' :: escStr k ++ '"' :: ':' :: ' ' :: serP lvl v
  | lvl, (k, v) :: kv2 :: rest =>
    '"' :: escStr k ++ '"' :: ':' :: ' ' :: serP lvl v ++
      ',' :: '\n' :: (indChars lvl ++ serPKVs lvl (kv2 :: rest))

end

/-- JSON whitespace. -/
def isWsCh (c : Char) : Bool :=
  c = ' ' || c = '\n' || c = '\t' || c = '\r'

/-- Drop leading whitespace. -/
def skipWs : List Char → List Char
  | [] => []
  | c :: s => if isWsCh c then skipWs s else c :: s

/-- An ASCII decimal digit. -/
def isDigitCh (c : Char) : Bool :=
  48 ≤ c.toNat && c.toNat ≤ 57

/-- The value of a digit character. -/
def digitVal (c : Char) : Nat :=
  c.toNat - 48

/-- Consume a maximal run of digits into an accumulator. -/
def parseDigits (acc : Nat) : List Char → Nat × List Char
  | [] => (acc, [])
  | c :: s =>
    if isDigitCh c then parseDigits (acc * 10 + digitVal c) s
    else (acc, c :: s)

/-- Does the input start with a digit. -/
def digitHead : List Char → Bool
  | c :: _ => isDigitCh c
  | [] => false

/-- The value of a hexadecimal digit character. -/
def parseHexDigit (c : Char) : Option Nat :=
  if 48 ≤ c.toNat && c.toNat ≤ 57 then some (c.toNat - 48)
  else if 97 ≤ c.toNat && c.toNat ≤ 102 then some (c.toNat - 87)
  else if 65 ≤ c.toNat && c.toNat ≤ 70 then some (c.toNat - 55)
  else none

/-- The single-character escape table of the JSON string grammar. -/
def escLookup (c : Char) : Option Char :=
  if c = '"' then some '"'
  else if c = '\\' then some '\\'
  else if c = '/' then some '/'
  else if c = 'n' then some '\n'
  else if c = 't' then some '\t'
  else if c = 'r' then some '\r'
  else if c = 'b' then some '\x08'
  else if c = 'f' then some '\x0c'
  else none

/-- Parse a string body up to its closing quote, resolving escapes.
Fuelled; one unit of fuel per consumed character is enough. -/
def parseStrAux : Nat → List Char → Option (List Char × List Char)
  | 0, _ => none
  | _ + 1, [] => none
  | fuel + 1, c :: r =>
    if c = '"' then some ([], r)
    else if c = '\\' then
      match r with
      | [] => none
      | e :: r1 =>
        match escLookup e with
        | some d => (parseStrAux fuel r1).map (fun p => (d :: p.1, p.2))
        | none =>
          if e = 'u' then
            match r1 with
            | h1 :: h2 :: h3 :: h4 :: r2 =>
              match parseHexDigit h1, parseHexDigit h2, parseHexDigit h3,
                  parseHexDigit h4 with
              | some a, some b, some c2, some d =>
                (parseStrAux fuel r2).map
                  (fun p => (Char.ofNat (((a * 16 + b) * 16 + c2) * 16 + d) ::
                    p.1, p.2))
              | _, _, _, _ => none
            | _ => none
          else none
    else (parseStrAux fuel r).map (fun p => (c :: p.1, p.2))

/-- Parse an integer token. -/
def parseIntTok : List Char → Option (Json × List Char)
  | [] => none
  | c :: s =>
    if c = '-' then
      if digitHead s then
        let p := parseDigits 0 s
        some (.jInt (-(p.1 : Int)), p.2)
      else none
    else if isDigitCh c then
      let p := parseDigits 0 (c :: s)
      some (.jInt (p.1 : Int), p.2)
    else none

mutual

/-- A recursive-descent JSON value parser (fuelled; whitespace-tolerant). -/
def parseVal : Nat → List Char → Option (Json × List Char)
  | 0, _ => none
  | fuel + 1, s0 =>
    let s := skipWs s0
    if leadsWith ['n', 'u', 'l', 'l'] s then some (.jNull, s.drop 4)
    else if leadsWith ['t', 'r', 'u', 'e'] s then some (.jBool true, s.drop 4)
    else if leadsWith ['f', 'a', 'l', 's', 'e'] s then
      some (.jBool false, s.drop 5)
    else
      match s with
      | [] => none
      | c :: r =>
        if c = '"' then
          (parseStrAux (r.length + 1) r).map (fun p => (.jStr p.1, p.2))
        else if c = '[' then
          if leadsWith [']'] (skipWs r) then
            some (.jArr [], (skipWs r).drop 1)
          else (parseItems fuel (skipWs r)).map (fun p => (.jArr p.1, p.2))
        else if c = '\x7b' then
          if leadsWith ['\x7d'] (skipWs r) then
            some (.jObj [], (skipWs r).drop 1)
          else (parseKVs fuel (skipWs r)).map (fun p => (.jObj p.1, p.2))
        else parseIntTok (c :: r)

/-- Parse one or more comma-separated array items and the closing
bracket. -/
def parseItems : Nat → List Char → Option (List Json × List Char)
  | 0, _ => none
  | fuel + 1, s => do
    let p ← parseVal fuel s
    match skipWs p.2 with
    | ',' :: r2 => (parseItems fuel r2).map (fun q => (p.1 :: q.1, q.2))
    | ']' :: r2 => some ([p.1], r2)
    | _ => none

/-- Parse one or more comma-separated object entries and the closing
brace. -/
def parseKVs : Nat → List Char →
    Option (List (List Char × Json) × List Char)
  | 0, _ => none
  | fuel + 1, s =>
    match skipWs s with
    | '"' :: r => do
      let pk ← parseStrAux (r.length + 1) r
      match skipWs pk.2 with
      | ':' :: r2 => do
        let pv ← parseVal fuel r2
        match skipWs pv.2 with
        | ',' :: r4 =>
          (parseKVs fuel r4).map (fun q => ((pk.1, pv.1) :: q.1, q.2))
        | '\x7d' :: r4 => some ([(pk.1, pv.1)], r4)
        | _ => none
      | _ => none
    | _ => none

end

/-- `json.loads`: parse a full document, allowing trailing whitespace
only. -/
def parse (s : List Char) : Option Json :=
  match parseVal (s.length + 1) s with
  | some p => if (skipWs p.2).isEmpty then some p.1 else none
  | none => none

mutual

/-- Fuel needed to parse a serialized value. -/
def sizeJ : Json → Nat
  | .jNull => 1
  | .jBool _ => 1
  | .jInt _ => 1
  | .jStr _ => 1
  | .jArr xs => sizeItems xs + 1
  | .jObj kvs => sizeKVs kvs + 1

/-- Fuel needed to parse serialized array items. -/
def sizeItems : List Json → Nat
  | [] => 1
  | x :: rest => max (sizeJ x) (sizeItems rest) + 1

/-- Fuel needed to parse serialized object entries. -/
def sizeKVs : List (List Char × Json) → Nat
  | [] => 1
  | (_, v) :: rest => max (sizeJ v) (sizeKVs rest) + 1

end

/-- The item loop of `StreamProcessor._write_batch`: a `,\n` separator
before every item except when no item has been written yet, then two spaces
and the minified record. -/
def writeBatchGo : List Json → Bool → List Char
  | [], _ => []
  | m :: rest, needSep =>
    (if needSep then [',', '\n'] else []) ++
      ' ' :: ' ' :: ser m ++ writeBatchGo rest true

/-- `StreamProcessor._write_batch`. -/
def writeBatch (batch : List Json) (isFirst : Bool) : List Char :=
  writeBatchGo batch (!isFirst)

/-- The batching loop of `process_messages_stream`: accumulate records,
write a full batch, write the remainder at the end. -/
def streamLoop (b : Nat) : List Json → List Json → Bool → List Char
  | [], batch, first =>
    if batch.isEmpty then [] else writeBatch batch first
  | m :: rest, batch, first =>
    let batch' := batch ++ [m]
    if b ≤ batch'.length then
      writeBatch batch' first ++ streamLoop b rest [] false
    else streamLoop b rest batch' first

/-- `StreamProcessor.process_messages_stream`: the opening `[\n`, the
batch-written items, and the closing `\n]`. -/
def processStream (rs : List Json) (b : Nat) : List Char :=
  '[' :: '\n' :: streamLoop b rs [] true ++ '\n' :: [']']

/-- `ExportManager.export_json`: one indented dump of the whole record
list (`default=_json_serializer` only fires on non-JSON values, which the
modelled records do not contain). -/
def exportJsonDoc (rs : List Json) : List Char :=
  serP 0 (.jArr rs)

/-- `10 ^ (number of decimal digits of n)`, by the recursion of `natSer`. -/
def pow10 (n : Nat) : Nat :=
  if _h : n < 10 then 10 else pow10 (n / 10) * 10
termination_by n
decreasing_by
  exact Nat.div_lt_self (by omega) (by omega)

/-- A character that can start a serialized JSON value. -/
def goodHead (c : Char) : Bool :=
  c == 'n' || c == 't' || c == 'f' || c == '"' || c == '[' ||
    c == '\x7b' || c == '-' || isDigitCh c

end StreamJson

-- Theorems from here on; all definitions are above this line.

namespace DataValidator

theorem dedupGo_sublist (msgs : List PyDict) :
    ∀ seen, (dedupGo seen msgs).Sublist msgs := by
  induction msgs with
  | nil => intro seen; simp [dedupGo]
  | cons m ms ih =>
    intro seen
    simp only [dedupGo]
    split
    · split
      · exact (ih seen).cons m
      · exact (ih _).cons₂ m
    · exact (ih seen).cons₂ m

theorem dedupGo_filter_falsy (msgs : List PyDict) :
    ∀ seen, (dedupGo seen msgs).filter (fun m => !pyTruthy (idOf m)) =
      msgs.filter (fun m => !pyTruthy (idOf m)) := by
  induction msgs with
  | nil => intro seen; simp [dedupGo]
  | cons m ms ih =>
    intro seen
    simp only [dedupGo]
    by_cases ht : pyTruthy (idOf m)
    · simp only [ht, if_true]
      split
      · rw [ih seen, List.filter_cons]
        simp [ht]
      · simp only [List.filter_cons, ht, Bool.not_true, ih]
    · simp only [ht, Bool.false_eq_true, if_false, List.filter_cons,
        Bool.not_false, ih seen]

theorem dedupGo_filter_id (v : PyVal) (hv : pyTruthy v = true)
    (msgs : List PyDict) :
    ∀ seen, (dedupGo seen msgs).filter (fun m => decide (idOf m = v)) =
      if v ∈ seen then [] else
        (msgs.filter (fun m => decide (idOf m = v))).take 1 := by
  induction msgs with
  | nil => intro seen; simp [dedupGo]
  | cons m ms ih =>
    intro seen
    simp only [dedupGo]
    by_cases hmv : idOf m = v
    · subst hmv
      simp only [hv, if_true]
      by_cases hseen : idOf m ∈ seen
      · rw [if_pos hseen, ih seen]
        simp [hseen, List.filter_cons]
      · rw [if_neg hseen]
        simp [List.filter_cons, ih (idOf m :: seen), List.mem_cons, hseen]
    · by_cases ht : pyTruthy (idOf m)
      · simp only [ht, if_true]
        split
        · rw [ih seen]
          simp [List.filter_cons, hmv]
        · have hne : v ≠ idOf m := fun h => hmv h.symm
          simp [List.filter_cons, hmv, ih (idOf m :: seen), List.mem_cons, hne]
      · simp only [ht, Bool.false_eq_true, if_false]
        simp [List.filter_cons, hmv, ih seen]

/-- `validate_and_clean_batch` characterized before deduplication: the valid
output is the cleaned validated sublist, the invalid output collects every
failing record with its reason; no record is lost. -/
theorem batchGo_spec (lib : PyLib) (cfg : Config) (msgs : List PyDict) :
    batchGo lib cfg msgs =
      ((msgs.filter (fun m => (validateMessage lib cfg m).1)).map
         (cleanMessage lib cfg),
       msgs.filterMap (fun m =>
         match validateMessage lib cfg m with
         | (true, _) => none
         | (false, e) => some (invalidEntry m e))) := by
  induction msgs with
  | nil => simp [batchGo]
  | cons m ms ih =>
    simp only [batchGo, ih, List.filter_cons, List.filterMap_cons]
    rcases hvm : validateMessage lib cfg m with ⟨ok, e⟩
    cases ok <;> simp [hvm]

theorem validateMessage_true_iff (lib : PyLib) (rdu : Bool) (m : PyDict)
    (hdate : ∀ v, dictGet m "date" = some v → ∃ s, v = .vStr s)
    (hsi : ∀ v, dictGet m "sender_info" = some v → ∃ si, v = .vDict si) :
    validateMessage lib { removeDeletedUsers := rdu } m = (true, none) ↔
      specValidC5 lib rdu m := by
  cases hid : dictGet m "id" with
  | none => simp [validateMessage, dictHas, hid, specValidC5]
  | some vid =>
  cases hdt : dictGet m "date" with
  | none => simp [validateMessage, dictHas, hid, hdt, specValidC5]
  | some vdt =>
  cases hmsg : dictGet m "message" with
  | none => simp [validateMessage, dictHas, hid, hdt, hmsg, specValidC5]
  | some vmsg =>
  obtain ⟨sdt, rfl⟩ := hdate vdt hdt
  cases vid with
  | vInt n =>
    by_cases hn : n ≤ 0
    · simp only [validateMessage, dictHas, hid, hdt, hmsg, specValidC5]
      simp [hn, senderDeleted]
    · have hn' : 0 < n := by omega
      by_cases hdok : lib.dateOk (replaceZ sdt)
      · cases vmsg with
        | vStr t =>
          by_cases hlen : t.length ≤ 10000
          · have h10 : ¬ 10000 < t.length := by omega
            cases rdu with
            | false =>
              simp only [validateMessage, dictHas, hid, hdt, hmsg,
                specValidC5]
              simp [hn, hn', hdok, hlen, h10, Nat.not_lt_zero]
            | true =>
              cases hsio : dictGet m "sender_info" with
              | none =>
                simp only [validateMessage, dictHas, hid, hdt, hmsg,
                  specValidC5, senderDeleted]
                simp [hn, hn', hdok, hlen, h10, hsio, dictGet, pyTruthy]
              | some vsi =>
                obtain ⟨si, rfl⟩ := hsi vsi hsio
                by_cases hdel :
                    pyTruthy ((dictGet si "deleted").getD (.vBool false))
                · simp only [validateMessage, dictHas, hid, hdt, hmsg,
                    specValidC5, senderDeleted]
                  simp [hn, hn', hdok, hlen, h10, hsio, hdel]
                · simp only [validateMessage, dictHas, hid, hdt, hmsg,
                    specValidC5, senderDeleted]
                  simp [hn, hn', hdok, hlen, h10, hsio, hdel]
          · have h10 : 10000 < t.length := by omega
            simp only [validateMessage, dictHas, hid, hdt, hmsg,
              specValidC5]
            simp [hn, hdok, hlen, h10]
        | vNone =>
          simp only [validateMessage, dictHas, hid, hdt, hmsg, specValidC5]
          simp [hn, hdok]
        | vBool b =>
          simp only [validateMessage, dictHas, hid, hdt, hmsg, specValidC5]
          simp [hn, hdok]
        | vInt k =>
          simp only [validateMessage, dictHas, hid, hdt, hmsg, specValidC5]
          simp [hn, hdok]
        | vList l =>
          simp only [validateMessage, dictHas, hid, hdt, hmsg, specValidC5]
          simp [hn, hdok]
        | vDict d =>
          simp only [validateMessage, dictHas, hid, hdt, hmsg, specValidC5]
          simp [hn, hdok]
      · simp only [validateMessage, dictHas, hid, hdt, hmsg, specValidC5]
        simp [hn, hdok]
  | vNone => simp [validateMessage, dictHas, hid, hdt, hmsg, specValidC5]
  | vBool b => simp [validateMessage, dictHas, hid, hdt, hmsg, specValidC5]
  | vStr s => simp [validateMessage, dictHas, hid, hdt, hmsg, specValidC5]
  | vList l => simp [validateMessage, dictHas, hid, hdt, hmsg, specValidC5]
  | vDict d => simp [validateMessage, dictHas, hid, hdt, hmsg, specValidC5]

theorem heapGet_le_max (h : Heap) (a : Nat) (d : HDict)
    (hg : heapGet h a = some d) : a ≤ heapMax h := by
  induction h with
  | nil => simp [heapGet] at hg
  | cons p rest ih =>
    obtain ⟨a2, d2⟩ := p
    rw [heapGet] at hg
    rw [heapMax]
    by_cases he : a2 = a
    · subst he
      omega
    · rw [if_neg he] at hg
      have := ih hg
      omega

theorem heapGet_fresh (h : Heap) (a : Nat) (hgt : heapMax h < a) :
    heapGet h a = none := by
  cases hh : heapGet h a with
  | none => rfl
  | some d =>
    have := heapGet_le_max h a d hh
    omega

theorem heapGet_alloc (h : Heap) (d2 : HDict) (a : Nat) (d : HDict)
    (hg : heapGet h a = some d) :
    heapGet (heapAlloc h d2).1 a = some d := by
  have hle := heapGet_le_max h a d hg
  simp only [heapAlloc]
  rw [heapGet, freshAddr, if_neg (by omega)]
  exact hg

theorem senderStep_frame (h : Heap) (c : HDict) (a : Nat) (d : HDict)
    (hg : heapGet h a = some d) : heapGet (senderStep h c).1 a = some d := by
  rw [senderStep]
  rcases hv : hdGet c "sender_info" with _ | v
  · exact hg
  · cases v with
    | hInt n => exact hg
    | hStr s2 => exact hg
    | hBool b => exact hg
    | hNone => exact hg
    | hRef si => exact heapGet_alloc h _ a d hg

theorem senderStep_max (h : Heap) (c : HDict) :
    heapMax h ≤ heapMax (senderStep h c).1 := by
  rw [senderStep]
  rcases hv : hdGet c "sender_info" with _ | v
  · exact Nat.le_refl _
  · cases v with
    | hInt n => exact Nat.le_refl _
    | hStr s2 => exact Nat.le_refl _
    | hBool b => exact Nat.le_refl _
    | hNone => exact Nat.le_refl _
    | hRef si =>
      simp only [heapAlloc, heapMax, freshAddr]
      omega

theorem cleanMessageH_frame (lib : PyLib) (cfg : Config) (h : Heap)
    (a a2 : Nat) (d : HDict) (hg : heapGet h a2 = some d) :
    heapGet (cleanMessageH lib cfg h a).1 a2 = some d := by
  simp only [cleanMessageH]
  exact heapGet_alloc _ _ _ _ (senderStep_frame h _ a2 d hg)

theorem cleanMessageH_fresh (lib : PyLib) (cfg : Config) (h : Heap)
    (a : Nat) : heapGet h (cleanMessageH lib cfg h a).2 = none := by
  simp only [cleanMessageH, heapAlloc]
  apply heapGet_fresh
  rw [freshAddr]
  exact Nat.lt_succ_of_le (senderStep_max h _)

theorem batchGoH_frame (lib : PyLib) (cfg : Config) :
    ∀ (as2 : List Nat) (h : Heap) (a2 : Nat) (d : HDict),
      heapGet h a2 = some d →
      heapGet (batchGoH lib cfg h as2).1 a2 = some d := by
  intro as2
  induction as2 with
  | nil =>
    intro h a2 d hg
    exact hg
  | cons a rest ih =>
    intro h a2 d hg
    simp only [batchGoH]
    by_cases hval :
        (validateMessageH lib cfg h ((heapGet h a).getD [])).1 = true
    · rw [if_pos hval]
      exact ih _ a2 d (cleanMessageH_frame lib cfg h a a2 d hg)
    · rw [if_neg hval]
      exact ih _ a2 d (heapGet_alloc h _ a2 d hg)


/-- C10: `clean_message` never mutates its argument. On the heap model of
Python object identity, `cleanMessageH` returns a record at a fresh address
(second conjunct), and every object already allocated — the argument record
itself, its nested `sender_info` dictionary and the dictionaries its media
keys reference — is mapped to the same, unchanged dictionary afterwards
(first conjunct); consequently `validate_and_clean_batch` leaves every
record of its input list unmodified (third conjunct). -/
theorem claim_C10 (lib : PyLib) (cfg : Config) (h : Heap) (a : Nat)
    (as2 : List Nat) (a2 : Nat) (d : HDict)
    (hex : heapGet h a2 = some d) :
    heapGet (cleanMessageH lib cfg h a).1 a2 = some d ∧
    heapGet h (cleanMessageH lib cfg h a).2 = none ∧
    heapGet (validateAndCleanBatchH lib cfg h as2).1 a2 = some d :=
  ⟨cleanMessageH_frame lib cfg h a a2 d hex,
   cleanMessageH_fresh lib cfg h a,
   by
     simp only [validateAndCleanBatchH]
     exact batchGoH_frame lib cfg as2 h a2 d hex⟩

/-- Witness for C10 at the concrete two-object heap `exH`: record 1 with
its sender dictionary at address 2; after cleaning record 1 (and after a
batch run on `[1]`), address 2 still holds the untouched sender
dictionary, and the cleaned record sits at an address `exH` did not
contain. -/
theorem claim_C10_witness :
    heapGet exH 2 = some exSD ∧
    (heapGet (cleanMessageH lib0 {} exH 1).1 2 = some exSD ∧
     heapGet exH (cleanMessageH lib0 {} exH 1).2 = none ∧
     heapGet (validateAndCleanBatchH lib0 {} exH [1]).1 2 = some exSD) :=
  ⟨rfl, claim_C10 lib0 {} exH 1 [1] 2 exSD rfl⟩

end DataValidator

/-- C5: `validate_message` returns `(true, null)` exactly when the record has
the fields `id`, `date` and `message`, a positive integer id, a parseable
date, a string text of length within the default bounds `[0, 10000]`, and —
when deleted-user removal is enabled — a sender not flagged deleted
(stated for records whose `date` field is a string and whose `sender_info`,
if present, is a dict, the shapes the pipeline produces); moreover
`validate_and_clean_batch` collects every failing record with its reason and
never aborts: each input record lands either, cleaned, in the valid output
or, paired with its reason, in the invalid output. -/
theorem claim_C5 (lib : PyLib) (rdu : Bool) (m : PyDict)
    (hdate : ∀ v, dictGet m "date" = some v → ∃ s, v = .vStr s)
    (hsi : ∀ v, dictGet m "sender_info" = some v → ∃ si, v = .vDict si) :
    (DataValidator.validateMessage lib { removeDeletedUsers := rdu } m =
        (true, none) ↔ DataValidator.specValidC5 lib rdu m) ∧
    (∀ (cfg : DataValidator.Config) (msgs : List PyDict),
      DataValidator.validateAndCleanBatch lib cfg msgs =
        (DataValidator.removeDuplicatesFromList cfg
          ((msgs.filter
            (fun r => (DataValidator.validateMessage lib cfg r).1)).map
            (DataValidator.cleanMessage lib cfg)),
         msgs.filterMap (fun r =>
           match DataValidator.validateMessage lib cfg r with
           | (true, _) => none
           | (false, e) => some (DataValidator.invalidEntry r e)))) := by
  refine ⟨DataValidator.validateMessage_true_iff lib rdu m hdate hsi,
    fun cfg msgs => ?_⟩
  simp [DataValidator.validateAndCleanBatch, DataValidator.batchGo_spec]

/-- Witness for C5 at the concrete record `mC5`. -/
theorem claim_C5_witness :
    (DataValidator.validateMessage lib0 { removeDeletedUsers := true } mC5 =
        (true, none) ↔ DataValidator.specValidC5 lib0 true mC5) ∧
    (∀ (cfg : DataValidator.Config) (msgs : List PyDict),
      DataValidator.validateAndCleanBatch lib0 cfg msgs =
        (DataValidator.removeDuplicatesFromList cfg
          ((msgs.filter
            (fun r => (DataValidator.validateMessage lib0 cfg r).1)).map
            (DataValidator.cleanMessage lib0 cfg)),
         msgs.filterMap (fun r =>
           match DataValidator.validateMessage lib0 cfg r with
           | (true, _) => none
           | (false, e) => some (DataValidator.invalidEntry r e)))) :=
  claim_C5 lib0 true mC5
    (by
      intro v hv
      rw [show dictGet mC5 "date" =
          some (.vStr "2024-01-02T03:04:05Z") from rfl] at hv
      exact ⟨_, (Option.some.inj hv).symm⟩)
    (by
      intro v hv
      rw [show dictGet mC5 "sender_info" =
          some (.vDict [("id", .vInt 5), ("deleted", .vBool false)])
          from rfl] at hv
      exact ⟨_, (Option.some.inj hv).symm⟩)

/-- C6: the deduplication applied by `validate_and_clean_batch` keeps records
in original order (a sublist), keeps exactly the first occurrence of every
truthy id, and always keeps records lacking a (truthy) id; and the concrete
batch of two valid records sharing id 1 — the first with a `sender_info`,
the second without — yields exactly the cleaned first record in the valid
output. -/
theorem claim_C6 (cfg : DataValidator.Config)
    (hrd : cfg.removeDuplicates = true) :
    (∀ msgs : List PyDict,
      (DataValidator.removeDuplicatesFromList cfg msgs).Sublist msgs ∧
      (∀ v, pyTruthy v = true →
        (DataValidator.removeDuplicatesFromList cfg msgs).filter
            (fun m => decide (DataValidator.idOf m = v)) =
          (msgs.filter (fun m => decide (DataValidator.idOf m = v))).take 1) ∧
      (DataValidator.removeDuplicatesFromList cfg msgs).filter
          (fun m => !pyTruthy (DataValidator.idOf m)) =
        msgs.filter (fun m => !pyTruthy (DataValidator.idOf m))) ∧
    DataValidator.validateAndCleanBatch lib0 {} [rC6a, rC6b] =
      ([DataValidator.cleanMessage lib0 {} rC6a], []) := by
  constructor
  · intro msgs
    have hrw : DataValidator.removeDuplicatesFromList cfg msgs =
        DataValidator.dedupGo [] msgs := by
      simp [DataValidator.removeDuplicatesFromList, hrd]
    rw [hrw]
    refine ⟨DataValidator.dedupGo_sublist msgs [],
      fun v hv => ?_, DataValidator.dedupGo_filter_falsy msgs []⟩
    rw [DataValidator.dedupGo_filter_id v hv msgs []]
    simp
  · rfl

theorem exceptBindOk {α β : Type} (a : α) (f : α → Except Unit β) :
    ((Except.ok a : Except Unit α) >>= f) = f a :=
  rfl

theorem exceptBindErr {α β : Type} (e : Unit) (f : α → Except Unit β) :
    ((Except.error e : Except Unit α) >>= f) = Except.error e :=
  rfl

namespace ContentFilter

theorem applyFilters_ok_iff (lib : PyLib) (m : PyDict) :
    ∀ (cfg : List (String × CVal)) (b : Bool),
      applyFilters lib m cfg = .ok b →
      (b = true ↔
        ∀ kv ∈ cfg, ∀ r, evalFilter lib m kv.1 kv.2 = some r →
          r = .ok true) := by
  intro cfg
  induction cfg with
  | nil =>
    intro b h
    simp only [applyFilters, Except.ok.injEq] at h
    subst h
    simp
  | cons kv rest ih =>
    intro b h
    rcases kv with ⟨k, v⟩
    simp only [applyFilters] at h
    cases hev : evalFilter lib m k v with
    | none =>
      rw [hev] at h
      have hiff := ih b h
      simp only [List.mem_cons, hiff]
      constructor
      · rintro hr kv (rfl | hm) r hsome
        · rw [hev] at hsome; cases hsome
        · exact hr kv hm r hsome
      · intro hr kv hm r hsome
        exact hr kv (Or.inr hm) r hsome
    | some r =>
      rw [hev] at h
      cases r with
      | error e =>
        simp only [exceptBindErr] at h
        exact Except.noConfusion h
      | ok bv =>
        simp only [exceptBindOk] at h
        cases bv with
        | true =>
          rw [if_pos rfl] at h
          have hiff := ih b h
          simp only [List.mem_cons, hiff]
          constructor
          · rintro hr kv (rfl | hm) r hsome
            · rw [hev] at hsome
              exact (Option.some.inj hsome).symm
            · exact hr kv hm r hsome
          · intro hr kv hm r hsome
            exact hr kv (Or.inr hm) r hsome
        | false =>
          rw [if_neg (by simp)] at h
          obtain rfl : false = b := Except.ok.inj h
          simp only [Bool.false_eq_true, false_iff, not_forall]
          refine ⟨(k, v), by simp, .ok false, by simpa using hev, by simp⟩

theorem applyFilters_shortCircuit (lib : PyLib) (m : PyDict)
    (k : String) (v : CVal)
    (hf : evalFilter lib m k v = some (.ok false)) :
    ∀ cfg1 cfg2, applyFilters lib m (cfg1 ++ (k, v) :: cfg2) =
      applyFilters lib m (cfg1 ++ [(k, v)]) := by
  intro cfg1
  induction cfg1 with
  | nil =>
    intro cfg2
    simp [applyFilters, hf, exceptBindOk]
  | cons e cfg1 ih =>
    intro cfg2
    rcases e with ⟨k', v'⟩
    simp only [List.cons_append, applyFilters]
    cases hev : evalFilter lib m k' v' with
    | none => exact ih cfg2
    | some r =>
      cases r with
      | error err => rfl
      | ok bv =>
        cases bv with
        | true => exact ih cfg2
        | false => rfl

theorem evalFilter_eq_none_iff (lib : PyLib) (m : PyDict) (k : String)
    (v : CVal) :
    evalFilter lib m k v = none ↔ recognizedKey k = false := by
  simp only [evalFilter, recognizedKey]
  split_ifs <;> simp_all

theorem applyFilters_filter_recognized (lib : PyLib) (m : PyDict) :
    ∀ cfg : List (String × CVal),
      applyFilters lib m cfg =
        applyFilters lib m (cfg.filter (fun kv => recognizedKey kv.1)) := by
  intro cfg
  induction cfg with
  | nil => rfl
  | cons kv rest ih =>
    rcases kv with ⟨k, v⟩
    by_cases hr : recognizedKey k = true
    · have hev : evalFilter lib m k v ≠ none := by
        intro hnone
        rw [evalFilter_eq_none_iff, hr] at hnone
        cases hnone

      obtain ⟨r, hr'⟩ := Option.ne_none_iff_exists'.mp hev
      rw [List.filter_cons, if_pos (by simp [hr])]
      simp only [applyFilters, hr']
      cases r with
      | error e => rfl
      | ok bv =>
        cases bv with
        | true => exact ih
        | false => rfl
    · have hev : evalFilter lib m k v = none := by
        rw [evalFilter_eq_none_iff]
        simpa using hr
      rw [List.filter_cons, if_neg (by simpa using hr)]
      simp only [applyFilters, hev]
      exact ih

end ContentFilter

/-- C7: when `apply_filters` returns a boolean, it is `true` exactly when
every recognized filter key present in the configuration has its predicate
satisfied; the conjunction short-circuits at the first failing predicate (the
entries after it are never evaluated); an empty configuration, and every
empty or `None` filter value, passes; and the worked example with
`min_length=10, has_links=True` rejects the 5-character link-only text and
accepts the 20-character text containing `http://example.com`. -/
theorem claim_C7 (lib : PyLib) (m : PyDict)
    (cfg : List (String × ContentFilter.CVal)) (b : Bool)
    (h : ContentFilter.applyFilters lib m cfg = .ok b) :
    (b = true ↔
      ∀ kv ∈ cfg, ∀ r, ContentFilter.evalFilter lib m kv.1 kv.2 = some r →
        r = .ok true) ∧
    (∀ (cfg1 : List (String × ContentFilter.CVal)) (k : String)
        (v : ContentFilter.CVal) cfg2,
      ContentFilter.evalFilter lib m k v = some (.ok false) →
      ContentFilter.applyFilters lib m (cfg1 ++ (k, v) :: cfg2) =
        ContentFilter.applyFilters lib m (cfg1 ++ [(k, v)])) ∧
    (∀ m' : PyDict, ContentFilter.applyFilters lib m' [] = .ok true) ∧
    (∀ m' : PyDict,
      ContentFilter.filterByMediaType m' [] = true ∧
      ContentFilter.filterByTextPatterns m' [] = .ok true ∧
      ContentFilter.filterByDateRange lib m' [] = .ok true ∧
      ContentFilter.filterBySender m' [] = .ok true ∧
      ContentFilter.filterByLength m' 0 = .ok true ∧
      ContentFilter.filterByLinks m' none = .ok true ∧
      ContentFilter.filterByMentions m' none = .ok true ∧
      ContentFilter.filterByForwarded m' none = true ∧
      ContentFilter.filterByEdited m' none = true) ∧
    ContentFilter.applyFilters lib0 mC7reject cfgC7 = .ok false ∧
    ContentFilter.applyFilters lib0 mC7accept cfgC7 = .ok true := by
  refine ⟨ContentFilter.applyFilters_ok_iff lib m cfg b h,
    fun cfg1 k v cfg2 hf =>
      ContentFilter.applyFilters_shortCircuit lib m k v hf cfg1 cfg2,
    fun _ => rfl,
    fun m' => ⟨rfl, rfl, rfl, rfl, rfl, rfl, rfl, rfl, rfl⟩,
    rfl, rfl⟩

/-- Witness for C7 at the accepting worked example. -/
theorem claim_C7_witness :
    (true = true ↔
      ∀ kv ∈ cfgC7, ∀ r,
        ContentFilter.evalFilter lib0 mC7accept kv.1 kv.2 = some r →
          r = .ok true) ∧
    (∀ (cfg1 : List (String × ContentFilter.CVal)) (k : String)
        (v : ContentFilter.CVal) cfg2,
      ContentFilter.evalFilter lib0 mC7accept k v = some (.ok false) →
      ContentFilter.applyFilters lib0 mC7accept (cfg1 ++ (k, v) :: cfg2) =
        ContentFilter.applyFilters lib0 mC7accept (cfg1 ++ [(k, v)])) ∧
    (∀ m' : PyDict, ContentFilter.applyFilters lib0 m' [] = .ok true) ∧
    (∀ m' : PyDict,
      ContentFilter.filterByMediaType m' [] = true ∧
      ContentFilter.filterByTextPatterns m' [] = .ok true ∧
      ContentFilter.filterByDateRange lib0 m' [] = .ok true ∧
      ContentFilter.filterBySender m' [] = .ok true ∧
      ContentFilter.filterByLength m' 0 = .ok true ∧
      ContentFilter.filterByLinks m' none = .ok true ∧
      ContentFilter.filterByMentions m' none = .ok true ∧
      ContentFilter.filterByForwarded m' none = true ∧
      ContentFilter.filterByEdited m' none = true) ∧
    ContentFilter.applyFilters lib0 mC7reject cfgC7 = .ok false ∧
    ContentFilter.applyFilters lib0 mC7accept cfgC7 = .ok true :=
  claim_C7 lib0 mC7accept cfgC7 true rfl

/-- C9: `apply_filters` ignores configuration keys that are not one of the
nine registered filter names — its result on any configuration equals its
result on the configuration restricted to recognized keys, so a misspelled
filter key silently imposes no constraint. -/
theorem claim_C9 (lib : PyLib) (m : PyDict)
    (cfg : List (String × ContentFilter.CVal)) :
    ContentFilter.applyFilters lib m cfg =
      ContentFilter.applyFilters lib m
        (cfg.filter (fun kv => ContentFilter.recognizedKey kv.1)) :=
  ContentFilter.applyFilters_filter_recognized lib m cfg

/-- Witness for C6 at the default configuration. -/
theorem claim_C6_witness :
    (∀ msgs : List PyDict,
      (DataValidator.removeDuplicatesFromList {} msgs).Sublist msgs ∧
      (∀ v, pyTruthy v = true →
        (DataValidator.removeDuplicatesFromList {} msgs).filter
            (fun m => decide (DataValidator.idOf m = v)) =
          (msgs.filter (fun m => decide (DataValidator.idOf m = v))).take 1) ∧
      (DataValidator.removeDuplicatesFromList {} msgs).filter
          (fun m => !pyTruthy (DataValidator.idOf m)) =
        msgs.filter (fun m => !pyTruthy (DataValidator.idOf m))) ∧
    DataValidator.validateAndCleanBatch lib0 {} [rC6a, rC6b] =
      ([DataValidator.cleanMessage lib0 {} rC6a], []) :=
  claim_C6 {} rfl

namespace MediaDownloader

/-- Counterexample to C3 as stated: for a document with MIME type
`text/plain` (whose `mimetypes` extension is `.txt`) carrying the original
filename `notes.md`, the pipeline generates `7.txt` for message id 7 — the
MIME-derived extension arrives as the explicit argument and beats the
original filename's extension — while the claimed priority order (original
filename's extension before the MIME-derived one) predicts `7.md`. -/
theorem claim_C3_counterexample :
    (extractMediaInfo lib0 mdC3).map
        (fun info =>
          generateFilename info.type info.filename info.extension 7) =
      some "7.txt" ∧
    "7" ++ specExtOrderC3 lib0 none (some "notes.md") (some "text/plain")
        "document" = "7.md" ∧
    ¬ ((extractMediaInfo lib0 mdC3).map
        (fun info =>
          generateFilename info.type info.filename info.extension 7) =
      some ("7" ++ specExtOrderC3 lib0 none (some "notes.md")
        (some "text/plain") "document")) :=
  ⟨rfl, rfl, by decide⟩

/-- C3 (amended): the generated filename is exactly the message id followed
by a single extension resolved as truthy explicit argument → original
filename's extension → per-kind default; the filename never depends on the
original filename's base name (only on whether the name is usable — truthy
with a dot — and on what follows its last dot); and in the `download_media`
pipeline a document's explicit argument is always the MIME-derived extension
(with `.bin` fallback), so at pipeline level the MIME-derived extension
takes precedence over the original filename's extension. -/
theorem claim_C3 (mt : String) (orig : Option String) (ext : Option String)
    (n : Int) (lib : PyLib) (mime : String) (size : Int) (date : String)
    (attrs : List DocAttr) (info : MediaInfo)
    (hinfo : extractMediaInfo lib (.document mime size date attrs) =
      some info)
    (hne : getFileExtensionFromMime lib mime ≠ "") :
    (generateFilename mt orig ext n =
      toString n ++ specExtAmended ext orig mt) ∧
    (∀ o1 o2 : String,
      origUsable (some o1) = origUsable (some o2) →
      extAfterLastDot o1 = extAfterLastDot o2 →
      generateFilename mt (some o1) ext n =
        generateFilename mt (some o2) ext n) ∧
    info.extension = some (getFileExtensionFromMime lib mime) ∧
    generateFilename info.type info.filename info.extension n =
      toString n ++ getFileExtensionFromMime lib mime := by
  obtain rfl := (Option.some.inj hinfo).symm
  refine ⟨?_, ?_, rfl, ?_⟩
  · simp only [generateFilename, specExtAmended]
    split_ifs <;> rfl
  · intro o1 o2 hcond hext
    simp only [generateFilename]
    by_cases hx : optStrTruthy ext = true
    · rw [if_pos hx, if_pos hx]
    · rw [if_neg hx, if_neg hx, hcond]
      by_cases h2 : origUsable (some o2) = true
      · rw [if_pos h2, if_pos h2]
        simp [hext]
      · rw [if_neg h2, if_neg h2]
  · have hx : optStrTruthy (some (getFileExtensionFromMime lib mime)) =
        true := by
      simpa [optStrTruthy] using hne
    simp [generateFilename, hx]

/-- Witness for the amended C3 at the counterexample document. -/
theorem claim_C3_witness :
    (generateFilename "document" (some "notes.md") (some ".txt") 7 =
      toString (7 : Int) ++
        specExtAmended (some ".txt") (some "notes.md") "document") ∧
    (∀ o1 o2 : String,
      origUsable (some o1) = origUsable (some o2) →
      extAfterLastDot o1 = extAfterLastDot o2 →
      generateFilename "document" (some o1) (some ".txt") 7 =
        generateFilename "document" (some o2) (some ".txt") 7) ∧
    infoC3.extension = some (getFileExtensionFromMime lib0 "text/plain") ∧
    generateFilename infoC3.type infoC3.filename infoC3.extension 7 =
      toString (7 : Int) ++ getFileExtensionFromMime lib0 "text/plain" :=
  claim_C3 "document" (some "notes.md") (some ".txt") 7 lib0 "text/plain"
    100 "2024-01-01" [.fileNameAttr "notes.md"] infoC3 rfl (by decide)

/-- C4: `download_media` on a message with extractable media
short-circuits when the target path already exists — the file system is
untouched, the fetch argument is irrelevant, and the descriptor carries the
existing content's hash and size with `downloaded=false` and
`reason=already_exists`; when the path is absent, a successful fetch is
persisted at the path and reported with `downloaded=true` (a failed fetch
yields `None`), and a second call for the same message then reports
`already_exists` on an unchanged file system — writing the same id's
attachment twice is idempotent. -/
theorem claim_C4 (lib : PyLib) (fs : FS) (msg : MMsg) (md : Media)
    (info : MediaInfo) (hm : msg.media = some md)
    (he : extractMediaInfo lib md = some info) :
    (∀ content, fsLookup fs (mediaPath msg info) = some content →
      ∀ fetch, downloadMedia lib fs msg fetch =
        (fs, some (alreadyExistsResult lib info (mediaPath msg info)
          content))) ∧
    (fsLookup fs (mediaPath msg info) = none →
      downloadMedia lib fs msg none = (fs, none) ∧
      ∀ content,
        downloadMedia lib fs msg (some content) =
          (fsInsert fs (mediaPath msg info) content,
           some (downloadedResult lib info (mediaPath msg info) content)) ∧
        ∀ fetch2,
          downloadMedia lib (fsInsert fs (mediaPath msg info) content) msg
              fetch2 =
            (fsInsert fs (mediaPath msg info) content,
             some (alreadyExistsResult lib info (mediaPath msg info)
               content))) := by
  constructor
  · intro content hex fetch
    simp [downloadMedia, hm, he, hex]
  · intro hnone
    refine ⟨by simp [downloadMedia, hm, he, hnone],
      fun content => ⟨?_, ?_⟩⟩
    · simp [downloadMedia, hm, he, hnone]
    · intro fetch2
      have hl : fsLookup (fsInsert fs (mediaPath msg info) content)
          (mediaPath msg info) = some content := by
        simp [fsInsert, fsLookup]
      simp [downloadMedia, hm, he, hl]

/-- Witness for C4 at a concrete photo message over the empty file
system. -/
theorem claim_C4_witness :
    (∀ content, fsLookup [] (mediaPath msgC4 infoC4) = some content →
      ∀ fetch, downloadMedia lib0 [] msgC4 fetch =
        ([], some (alreadyExistsResult lib0 infoC4 (mediaPath msgC4 infoC4)
          content))) ∧
    (fsLookup [] (mediaPath msgC4 infoC4) = none →
      downloadMedia lib0 [] msgC4 none = ([], none) ∧
      ∀ content,
        downloadMedia lib0 [] msgC4 (some content) =
          (fsInsert [] (mediaPath msgC4 infoC4) content,
           some (downloadedResult lib0 infoC4 (mediaPath msgC4 infoC4)
             content)) ∧
        ∀ fetch2,
          downloadMedia lib0 (fsInsert [] (mediaPath msgC4 infoC4) content)
              msgC4 fetch2 =
            (fsInsert [] (mediaPath msgC4 infoC4) content,
             some (alreadyExistsResult lib0 infoC4 (mediaPath msgC4 infoC4)
               content))) :=
  claim_C4 lib0 [] msgC4 (.photo "2024-01-01" 2) infoC4 rfl rfl

end MediaDownloader

namespace Downloader

theorem dcGo_events_save (lib : PyLib)
    (fcfg : List (String × ContentFilter.CVal)) (resume : Bool)
    (rp : Option Int) (bs : Nat) :
    ∀ (msgs : List (Option TMsg)) (batch acc : List PyDict) (total : Nat)
      (res : List PyDict × Nat × List Event),
      dcGo lib fcfg resume rp bs msgs batch acc total = .ok res →
      ∀ e ∈ res.2.2, isSaveEvent e = true := by
  intro msgs
  induction msgs with
  | nil =>
    intro batch acc total res h e he
    simp only [dcGo] at h
    split at h <;>
      (obtain rfl := Except.ok.inj h; simp at he)
  | cons om rest ih =>
    intro batch acc total res h e he
    cases om with
    | none => exact ih batch acc total res h e he
    | some m =>
      simp only [dcGo] at h
      split at h
      · exact ih batch acc total res h e he
      · cases hf : ContentFilter.applyFilters lib (mergedDict m) fcfg with
        | error u =>
          rw [hf] at h
          simp only [exceptBindErr] at h
          exact Except.noConfusion h
        | ok b =>
          rw [hf] at h
          simp only [exceptBindOk] at h
          cases b with
          | false =>
            rw [if_neg (by simp)] at h
            exact ih batch acc total res h e he
          | true =>
            rw [if_pos rfl] at h
            split at h
            · cases hr : dcGo lib fcfg resume rp bs rest []
                  (acc ++ (batch ++ [mergedDict m]))
                  (total + (batch ++ [mergedDict m]).length) with
              | error u =>
                rw [hr] at h
                simp only [exceptBindErr] at h
                exact Except.noConfusion h
              | ok res' =>
                rw [hr] at h
                simp only [exceptBindOk] at h
                obtain rfl := Except.ok.inj h
                simp only [List.mem_append] at he
                rcases he with he | he
                · cases resume with
                  | true =>
                    simp only [if_true, List.mem_singleton] at he
                    subst he
                    rfl
                  | false => simp at he
                · exact ih [] _ _ res' hr e he
            · exact ih _ acc total res h e he

theorem sinkAfter_aux (tr : List Event) :
    ∀ s : List PyDict,
      tr.foldl
        (fun s e =>
          match e with
          | .exportRecords rs => s ++ rs
          | _ => s) s = s ++ sinkAfter tr := by
  induction tr with
  | nil => intro s; simp [sinkAfter]
  | cons e tr ih =>
    intro s
    cases e with
    | save i n => simpa [sinkAfter, List.foldl_cons] using ih s
    | complete => simpa [sinkAfter, List.foldl_cons] using ih s
    | exportRecords rs =>
      simp only [sinkAfter, List.foldl_cons]
      rw [ih (s ++ rs), ih ([] ++ rs), List.append_assoc]
      simp

theorem sinkAfter_all_save (tr : List Event)
    (h : ∀ e ∈ tr, isSaveEvent e = true) : sinkAfter tr = [] := by
  induction tr with
  | nil => rfl
  | cons e tr ih =>
    cases e with
    | save i n =>
      have : sinkAfter (Event.save i n :: tr) = sinkAfter tr := rfl
      rw [this]
      exact ih (fun e he => h e (List.mem_cons_of_mem _ he))
    | complete =>
      have := h .complete (List.mem_cons_self _ _)
      simp [isSaveEvent] at this
    | exportRecords rs =>
      have := h (.exportRecords rs) (List.mem_cons_self _ _)
      simp [isSaveEvent] at this

/-- Counterexample to C1 as stated: a two-message chat with batch size 1
(resuming enabled, no prior checkpoint) produces the trace
`save 1 · save 2 · export · complete`: at the moment of the first
`save_progress` call nothing at all has been written to the output sink, so
the checkpoint is advanced before, not after, its batch is durably
written. -/
theorem claim_C1_counterexample :
    downloadChat lib0 [] {} true none 1 msgsC1 = .ok (accC1, 2, trC1) ∧
    ¬ writeThenCheckpoint trC1 := by
  refine ⟨rfl, fun h => ?_⟩
  obtain ⟨r, hr, _⟩ := h 0 (.vInt 1) 1 rfl
  simp [sinkAfter] at hr

/-- C1 (amended): in every successful `download_chat` run, each
`save_progress` checkpoint write happens strictly before the single
end-of-run export of the records to the output sink, and at the moment just
after any checkpoint write the output sink is still empty — a crash after a
checkpoint save but before the final export loses every accumulated record
while the checkpoint claims them done. -/
theorem trace_structure (trL suffixL : List Event)
    (hsaves : ∀ e ∈ trL, isSaveEvent e = true)
    (hsufNoSave : ∀ e ∈ suffixL, isSaveEvent e = false) :
    (∀ j rs, (trL ++ suffixL).get? j = some (.exportRecords rs) →
      ∀ k i n, (trL ++ suffixL).get? k = some (.save i n) → k < j) ∧
    (∀ k i n, (trL ++ suffixL).get? k = some (.save i n) →
      sinkAfter ((trL ++ suffixL).take (k + 1)) = []) := by
  have hklt : ∀ k i n, (trL ++ suffixL).get? k = some (.save i n) →
      k < trL.length := by
    intro k i n hk
    by_contra hge
    push_neg at hge
    rw [List.get?_append_right hge] at hk
    have := hsufNoSave _ (List.get?_mem hk)
    simp [isSaveEvent] at this
  constructor
  · intro j rs hj k i n hk
    have hkl := hklt k i n hk
    by_contra hjk
    push_neg at hjk
    have hjlt : j < trL.length := lt_of_le_of_lt hjk hkl
    rw [List.get?_append hjlt] at hj
    have := hsaves _ (List.get?_mem hj)
    simp [isSaveEvent] at this
  · intro k i n hk
    have hkl := hklt k i n hk
    rw [List.take_append_of_le_length hkl]
    exact sinkAfter_all_save _
      (fun e he => hsaves e (List.take_subset _ _ he))

/-- C1 (amended): in every successful `download_chat` run, each
`save_progress` checkpoint write happens strictly before the single
end-of-run export of the records to the output sink, and at the moment just
after any checkpoint write the output sink is still empty — a crash after a
checkpoint save but before the final export loses every accumulated record
while the checkpoint claims them done. -/
theorem claim_C1 (lib : PyLib) (fcfg : List (String × ContentFilter.CVal))
    (vcfg : DataValidator.Config) (resume : Bool) (rp : Option Int)
    (bs : Nat) (msgs : List (Option TMsg)) (ms : List PyDict) (total : Nat)
    (tr : List Event)
    (h : downloadChat lib fcfg vcfg resume rp bs msgs =
      .ok (ms, total, tr)) :
    (∀ j rs, tr.get? j = some (.exportRecords rs) →
      ∀ k i n, tr.get? k = some (.save i n) → k < j) ∧
    (∀ k i n, tr.get? k = some (.save i n) →
      sinkAfter (tr.take (k + 1)) = []) := by
  simp only [downloadChat] at h
  cases hr : dcGo lib fcfg resume rp bs msgs [] [] 0 with
  | error u =>
    rw [hr] at h
    simp only [exceptBindErr] at h
    exact Except.noConfusion h
  | ok res =>
    rw [hr] at h
    simp only [exceptBindOk] at h
    have h3 := Except.ok.inj h
    simp only [Prod.mk.injEq] at h3
    obtain ⟨-, -, rfl⟩ := h3
    rw [List.append_assoc]
    refine trace_structure res.2.2 _
      (dcGo_events_save lib fcfg resume rp bs msgs [] [] 0 res hr) ?_
    intro e he
    rcases List.mem_append.mp he with he | he
    · split at he
      · simp at he
      · simp only [List.mem_singleton] at he
        subst he
        rfl
    · split at he
      · simp only [List.mem_singleton] at he
        subst he
        rfl
      · simp at he

/-- Witness for the amended C1 at the counterexample run. -/
theorem claim_C1_witness :
    (∀ j rs, trC1.get? j = some (.exportRecords rs) →
      ∀ k i n, trC1.get? k = some (.save i n) → k < j) ∧
    (∀ k i n, trC1.get? k = some (.save i n) →
      sinkAfter (trC1.take (k + 1)) = []) :=
  claim_C1 lib0 [] {} true none 1 msgsC1 accC1 2 trC1 rfl

theorem dcGo_resume_filter (lib : PyLib)
    (fcfg : List (String × ContentFilter.CVal)) (bs : Nat) (c : Int)
    (hc : c ≠ 0) :
    ∀ (msgs : List (Option TMsg)) (batch acc : List PyDict) (total : Nat),
      dcGo lib fcfg true (some c) bs msgs batch acc total =
        dcGo lib fcfg true none bs (msgs.filter (keepAfter c)) batch acc
          total := by
  intro msgs
  induction msgs with
  | nil => intro batch acc total; rfl
  | cons om rest ih =>
    intro batch acc total
    cases om with
    | none =>
      rw [List.filter_cons]
      have hk : keepAfter c none = true := rfl
      rw [hk]
      simp only [if_pos rfl]
      exact ih batch acc total
    | some m =>
      rw [List.filter_cons]
      by_cases hle : m.id ≤ c
      · have hskip : skipByResume true (some c) m.id = true := by
          simp [skipByResume, hc, hle]
        have hdrop : keepAfter c (some m) = false := by
          simp [keepAfter]
          omega
        rw [hdrop]
        simp only [Bool.false_eq_true, if_false]
        simp only [dcGo, hskip, if_true]
        exact ih batch acc total
      · have hskip : skipByResume true (some c) m.id = false := by
          simp [skipByResume, hle]
        have hskip2 : skipByResume true none m.id = false := rfl
        have hkeep : keepAfter c (some m) = true := by
          simp [keepAfter]
          omega
        rw [hkeep]
        simp only [if_pos rfl]
        simp only [dcGo, hskip, hskip2, Bool.false_eq_true, if_false]
        cases hf : ContentFilter.applyFilters lib (mergedDict m) fcfg with
        | error u => rfl
        | ok b =>
          simp only [exceptBindOk]
          cases b with
          | false =>
            rw [if_neg (by simp), if_neg (by simp)]
            exact ih batch acc total
          | true =>
            rw [if_pos rfl, if_pos rfl]
            by_cases hfull : bs ≤ (batch ++ [mergedDict m]).length
            · rw [if_pos hfull, if_pos hfull,
                ih [] (acc ++ (batch ++ [mergedDict m]))
                  (total + (batch ++ [mergedDict m]).length)]
            · rw [if_neg hfull, if_neg hfull]
              exact ih (batch ++ [mergedDict m]) acc total

/-- C2: resuming with a non-zero checkpoint cursor `c` behaves exactly as
running the export on the input stream restricted to records with id
greater than `c` — records with id at most `c` are neither filtered,
batched, committed, counted, nor traced, and records with id above `c` are
processed normally. -/
theorem claim_C2 (lib : PyLib) (fcfg : List (String × ContentFilter.CVal))
    (vcfg : DataValidator.Config) (bs : Nat)
    (msgs : List (Option TMsg)) (c : Int) (hc : c ≠ 0) :
    downloadChat lib fcfg vcfg true (some c) bs msgs =
      downloadChat lib fcfg vcfg true none bs
        (msgs.filter (keepAfter c)) := by
  simp only [downloadChat]
  rw [dcGo_resume_filter lib fcfg bs c hc msgs [] [] 0]

/-- Witness for C2 at the chat with ids 1..100 and checkpoint 50: the run
equals the run on the stream restricted to ids 51..100. -/
theorem claim_C2_witness :
    downloadChat lib0 [] {} true (some 50) 1000 msgs100 =
      downloadChat lib0 [] {} true none 1000
        (msgs100.filter (keepAfter 50)) :=
  claim_C2 lib0 [] {} 1000 msgs100 50 (by decide)

end Downloader

namespace StreamJson

theorem isDigitCh_digitChar (n : Nat) (h : n < 10) :
    isDigitCh (digitChar n) = true := by
  interval_cases n <;> decide

theorem digitVal_digitChar (n : Nat) (h : n < 10) :
    digitVal (digitChar n) = n := by
  interval_cases n <;> decide

theorem natSer_head (n : Nat) :
    ∃ c t, natSer n = c :: t ∧ isDigitCh c = true := by
  induction n using Nat.strong_induction_on with
  | _ n ih =>
    by_cases h : n < 10
    · refine ⟨digitChar n, [], ?_, isDigitCh_digitChar n h⟩
      rw [natSer, dif_pos h]
    · obtain ⟨c, t, h1, h2⟩ :=
        ih (n / 10) (Nat.div_lt_self (by omega) (by omega))
      refine ⟨c, t ++ [digitChar (n % 10)], ?_, h2⟩
      rw [natSer, dif_neg h, h1]
      rfl

theorem parseDigits_natSer (n : Nat) :
    ∀ acc rest, parseDigits acc (natSer n ++ rest) =
      parseDigits (acc * pow10 n + n) rest := by
  induction n using Nat.strong_induction_on with
  | _ n ih =>
    intro acc rest
    by_cases h : n < 10
    · rw [natSer, dif_pos h, pow10, dif_pos h]
      simp [parseDigits, isDigitCh_digitChar n h, digitVal_digitChar n h]
    · rw [natSer, dif_neg h, pow10, dif_neg h, List.append_assoc]
      simp only [List.singleton_append]
      rw [ih (n / 10) (Nat.div_lt_self (by omega) (by omega)) acc
          (digitChar (n % 10) :: rest)]
      have hm : n % 10 < 10 := Nat.mod_lt _ (by omega)
      simp only [parseDigits, isDigitCh_digitChar _ hm, if_true,
        digitVal_digitChar _ hm]
      have harith : (acc * pow10 (n / 10) + n / 10) * 10 + n % 10 =
          acc * (pow10 (n / 10) * 10) + n := by
        rw [Nat.add_mul, Nat.mul_assoc]
        omega
      rw [harith]

theorem parseDigits_nondigit (acc : Nat) (rest : List Char)
    (h : digitHead rest = false) : parseDigits acc rest = (acc, rest) := by
  cases rest with
  | nil => rfl
  | cons c s =>
    simp only [digitHead] at h
    simp [parseDigits, h]

theorem parseDigits_natSer_done (n acc : Nat) (rest : List Char)
    (h : digitHead rest = false) :
    parseDigits acc (natSer n ++ rest) = (acc * pow10 n + n, rest) := by
  rw [parseDigits_natSer, parseDigits_nondigit _ _ h]

theorem digit_toNat (c : Char) (h : isDigitCh c = true) :
    48 ≤ c.toNat ∧ c.toNat ≤ 57 := by
  simpa [isDigitCh] using h

theorem parseIntTok_intSer (n : Int) (rest : List Char)
    (h : digitHead rest = false) :
    parseIntTok (intSer n ++ rest) = some (.jInt n, rest) := by
  by_cases hn : n < 0
  · simp only [intSer, if_pos hn, List.cons_append, parseIntTok, if_pos rfl]
    obtain ⟨c, t, hns, hd⟩ := natSer_head (-n).toNat
    have hdh : digitHead (natSer (-n).toNat ++ rest) = true := by
      rw [hns]
      simpa [digitHead] using hd
    rw [if_pos hdh, parseDigits_natSer_done _ 0 rest h]
    have h2 : (-(((0 * pow10 (-n).toNat + (-n).toNat : Nat)) : Int)) = n := by
      have h3 : (0 : Nat) * pow10 (-n).toNat = 0 := by omega
      rw [h3]
      omega
    rw [h2]
    simp
  · simp only [intSer, if_neg hn]
    obtain ⟨c, t, hns, hd⟩ := natSer_head n.toNat
    rw [hns, List.cons_append, parseIntTok]
    have hnd : ¬ c = '-' := by
      intro hc
      rw [hc] at hd
      simp [isDigitCh] at hd
    rw [if_neg hnd, if_pos hd, ← List.cons_append, ← hns,
      parseDigits_natSer_done _ 0 rest h]
    have h2 : (((0 * pow10 n.toNat + n.toNat : Nat)) : Int) = n := by
      have h3 : (0 : Nat) * pow10 n.toNat = 0 := by omega
      rw [h3]
      omega
    show some (Json.jInt (((0 * pow10 n.toNat + n.toNat : Nat)) : Int),
      (0 * pow10 n.toNat + n.toNat, rest).2) = some (Json.jInt n, rest)
    rw [h2]

theorem parseHexDigit_hexDigitChar (n : Nat) (h : n < 16) :
    parseHexDigit (hexDigitChar n) = some n := by
  interval_cases n <;> decide

theorem parseStrAux_escChar (f : Nat) (c : Char) (t : List Char) :
    parseStrAux (f + 1) (escChar c ++ t) =
      (parseStrAux f t).map (fun p => (c :: p.1, p.2)) := by
  simp only [escChar]
  split_ifs with h1 h2 h3 h4 h5 h6 h7 h8
  · subst h1; rfl
  · subst h2; rfl
  · subst h3; rfl
  · subst h4; rfl
  · subst h5; rfl
  · subst h6; rfl
  · subst h7; rfl
  · show parseStrAux (f + 1) ('\\' :: 'u' :: '0' :: '0' ::
        hexDigitChar (c.toNat / 16) :: hexDigitChar (c.toNat % 16) :: t) = _
    have hdiv : c.toNat / 16 < 16 := by omega
    have hmod : c.toNat % 16 < 16 := by omega
    have harith : ((0 * 16 + 0) * 16 + c.toNat / 16) * 16 + c.toNat % 16 =
        c.toNat := by omega
    simp only [parseStrAux,
      (by decide : ((('\\' : Char) = '"')) = False),
      (by decide : escLookup 'u' = none),
      (by decide : ((('u' : Char) = 'u')) = True),
      (by decide : parseHexDigit '0' = some 0),
      if_false, if_true,
      parseHexDigit_hexDigitChar _ hdiv, parseHexDigit_hexDigitChar _ hmod,
      harith, Char.ofNat_toNat]
  · show parseStrAux (f + 1) (c :: t) = _
    simp [parseStrAux, h1, h2]

theorem parseStrAux_escStr (s : List Char) (t : List Char) (f : Nat)
    (h : s.length < f) :
    parseStrAux f (escStr s ++ '"' :: t) = some (s, t) := by
  induction s generalizing f with
  | nil =>
    obtain ⟨f2, rfl⟩ := Nat.exists_eq_succ_of_ne_zero (by omega : f ≠ 0)
    rfl
  | cons c s ih =>
    obtain ⟨f2, rfl⟩ := Nat.exists_eq_succ_of_ne_zero (by omega : f ≠ 0)
    have hes : escStr (c :: s) = escChar c ++ escStr s := rfl
    rw [hes, List.append_assoc, parseStrAux_escChar,
      ih f2 (by simpa using h)]
    rfl

theorem skipWs_not_ws (c : Char) (h : isWsCh c = false) (s : List Char) :
    skipWs (c :: s) = c :: s := by
  simp [skipWs, h]

theorem skipWs_ws_front :
    ∀ p : List Char, (∀ c ∈ p, isWsCh c = true) →
      ∀ s, skipWs (p ++ s) = skipWs s := by
  intro p
  induction p with
  | nil => intro _ s; rfl
  | cons c p ih =>
    intro h s
    have hc := h c (List.mem_cons_self _ _)
    simp only [List.cons_append, skipWs, hc, if_true]
    exact ih (fun d hd => h d (List.mem_cons_of_mem _ hd)) s

theorem parseVal_ws_front (fuel : Nat) (p : List Char)
    (h : ∀ c ∈ p, isWsCh c = true) (s : List Char) :
    parseVal fuel (p ++ s) = parseVal fuel s := by
  cases fuel with
  | zero => rfl
  | succ f =>
    simp only [parseVal]
    rw [skipWs_ws_front p h s]

theorem digit_ne_all (c : Char) (h : isDigitCh c = true) :
    isWsCh c = false ∧ c ≠ 'n' ∧ c ≠ 't' ∧ c ≠ 'f' ∧ c ≠ '"' ∧
    c ≠ '[' ∧ c ≠ '\x7b' ∧ c ≠ ']' ∧ c ≠ '\x7d' ∧ c ≠ ',' ∧
    c ≠ ':' ∧ c ≠ '\\' ∧ c ≠ '-' := by
  obtain ⟨hl, hu⟩ := digit_toNat c h
  refine ⟨?_, ?_, ?_, ?_, ?_, ?_, ?_, ?_, ?_, ?_, ?_, ?_, ?_⟩
  · by_contra hws
    rw [Bool.not_eq_false] at hws
    simp only [isWsCh, Bool.or_eq_true, decide_eq_true_eq] at hws
    rcases hws with ((hc | hc) | hc) | hc <;>
      (subst hc; revert hl hu; decide)
  all_goals
    intro hc
    subst hc
    revert hl hu
    decide

theorem goodHead_not_ws (c : Char) (h : goodHead c = true) :
    isWsCh c = false := by
  simp only [goodHead, Bool.or_eq_true, beq_iff_eq] at h
  rcases h with ((((((h | h) | h) | h) | h) | h) | h) | h
  · subst h; rfl
  · subst h; rfl
  · subst h; rfl
  · subst h; rfl
  · subst h; rfl
  · subst h; rfl
  · subst h; rfl
  · exact (digit_ne_all c h).1

theorem ser_head (v : Json) : ∃ c t, ser v = c :: t ∧ goodHead c = true := by
  cases v with
  | jNull => exact ⟨'n', ['u', 'l', 'l'], by simp [ser], by decide⟩
  | jBool b =>
    cases b with
    | true => exact ⟨'t', ['r', 'u', 'e'], by simp [ser], by decide⟩
    | false => exact ⟨'f', ['a', 'l', 's', 'e'], by simp [ser], by decide⟩
  | jInt n =>
    by_cases hn : n < 0
    · exact ⟨'-', natSer (-n).toNat, by simp [ser, intSer, hn], by decide⟩
    · obtain ⟨c, t, hns, hd⟩ := natSer_head n.toNat
      refine ⟨c, t, ?_, by simp [goodHead, hd]⟩
      simp only [ser, intSer, hn, if_false]
      exact hns
  | jStr s => exact ⟨'"', escStr s ++ ['"'], by simp [ser], by decide⟩
  | jArr xs => exact ⟨'[', serItems xs ++ [']'], by simp [ser], by decide⟩
  | jObj kvs =>
    exact ⟨'\x7b', serKVs kvs ++ ['\x7d'], by simp [ser], by decide⟩

theorem serP_head (lvl : Nat) (v : Json) :
    ∃ c t, serP lvl v = c :: t ∧ goodHead c = true := by
  cases v with
  | jNull => exact ⟨'n', ['u', 'l', 'l'], by simp [serP], by decide⟩
  | jBool b =>
    cases b with
    | true => exact ⟨'t', ['r', 'u', 'e'], by simp [serP], by decide⟩
    | false => exact ⟨'f', ['a', 'l', 's', 'e'], by simp [serP], by decide⟩
  | jInt n =>
    by_cases hn : n < 0
    · exact ⟨'-', natSer (-n).toNat, by simp [serP, intSer, hn], by decide⟩
    · obtain ⟨c, t, hns, hd⟩ := natSer_head n.toNat
      refine ⟨c, t, ?_, by simp [goodHead, hd]⟩
      simp only [serP, intSer, hn, if_false]
      exact hns
  | jStr s => exact ⟨'"', escStr s ++ ['"'], by simp [serP], by decide⟩
  | jArr xs =>
    cases xs with
    | nil => exact ⟨'[', [']'], by simp [serP], by decide⟩
    | cons x xs =>
      exact ⟨'[', '\n' :: ((indChars (lvl + 1) ++
        serPItems (lvl + 1) (x :: xs)) ++
        '\n' :: indChars lvl ++ [']']), by simp [serP], by decide⟩
  | jObj kvs =>
    cases kvs with
    | nil => exact ⟨'\x7b', ['\x7d'], by simp [serP], by decide⟩
    | cons kv kvs =>
      exact ⟨'\x7b', '\n' :: ((indChars (lvl + 1) ++
        serPKVs (lvl + 1) (kv :: kvs)) ++
        '\n' :: indChars lvl ++ ['\x7d']), by simp [serP], by decide⟩


theorem escChar_length_pos (c : Char) : 1 ≤ (escChar c).length := by
  unfold escChar
  split_ifs <;> simp

theorem escStr_length (s : List Char) : s.length ≤ (escStr s).length := by
  induction s with
  | nil => simp [escStr]
  | cons c s ih =>
    have h : escStr (c :: s) = escChar c ++ escStr s := rfl
    rw [h]
    simp only [List.length_append, List.length_cons]
    have := escChar_length_pos c
    omega

theorem leadsWith_refl (p s : List Char) : leadsWith p (p ++ s) = true := by
  induction p with
  | nil => rfl
  | cons c p ih => simp [leadsWith, ih]

theorem leadsWith_ne_head (d : Char) (p : List Char) (c : Char)
    (s : List Char) (h : ¬ d = c) : leadsWith (d :: p) (c :: s) = false := by
  simp [leadsWith, h]

theorem goodHead_facts (c : Char) (h : goodHead c = true) :
    isWsCh c = false ∧ ¬ c = ']' ∧ ¬ c = '\x7d' ∧ ¬ c = ',' ∧ ¬ c = ':' := by
  simp only [goodHead, Bool.or_eq_true, beq_iff_eq] at h
  rcases h with ((((((h | h) | h) | h) | h) | h) | h) | h
  · subst h; exact ⟨rfl, by simp, by simp, by simp, by simp⟩
  · subst h; exact ⟨rfl, by simp, by simp, by simp, by simp⟩
  · subst h; exact ⟨rfl, by simp, by simp, by simp, by simp⟩
  · subst h; exact ⟨rfl, by simp, by simp, by simp, by simp⟩
  · subst h; exact ⟨rfl, by simp, by simp, by simp, by simp⟩
  · subst h; exact ⟨rfl, by simp, by simp, by simp, by simp⟩
  · subst h; exact ⟨rfl, by simp, by simp, by simp, by simp⟩
  · obtain ⟨hw, _, _, _, _, _, _, h3, h4, h5, h6, _, _⟩ := digit_ne_all c h
    exact ⟨hw, h3, h4, h5, h6⟩

theorem sizeJ_pos (v : Json) : 1 ≤ sizeJ v := by
  cases v <;> simp [sizeJ]

theorem sizeItems_pos (xs : List Json) : 1 ≤ sizeItems xs := by
  cases xs <;> simp [sizeItems]

theorem sizeKVs_pos (kvs : List (List Char × Json)) : 1 ≤ sizeKVs kvs := by
  cases kvs with
  | nil => simp [sizeKVs]
  | cons kv rest =>
    obtain ⟨k, v⟩ := kv
    simp [sizeKVs]

theorem optBindSome {α β : Type} (a : α) (g : α → Option β) :
    (some a >>= g) = g a := rfl


set_option maxHeartbeats 1000000 in
theorem parse_round_aux (fuel : Nat) :
    (∀ v rest, sizeJ v ≤ fuel → digitHead rest = false →
      parseVal fuel (ser v ++ rest) = some (v, rest)) ∧
    (∀ xs rest, sizeItems xs ≤ fuel → xs ≠ [] →
      parseItems fuel (serItems xs ++ ']' :: rest) = some (xs, rest)) ∧
    (∀ kvs rest, sizeKVs kvs ≤ fuel → kvs ≠ [] →
      parseKVs fuel (serKVs kvs ++ '\x7d' :: rest) = some (kvs, rest)) := by
  induction fuel using Nat.strong_induction_on with
  | _ fuel ih =>
    match fuel with
    | 0 =>
      refine ⟨?_, ?_, ?_⟩
      · intro v rest hs _
        exact absurd hs (by have := sizeJ_pos v; omega)
      · intro xs rest hs _
        exact absurd hs (by have := sizeItems_pos xs; omega)
      · intro kvs rest hs _
        exact absurd hs (by have := sizeKVs_pos kvs; omega)
    | f + 1 =>
      obtain ⟨ihV, ihI, ihK⟩ := ih f (by omega)
      refine ⟨?_, ?_, ?_⟩
      · intro v rest hs hrest
        cases v with
        | jNull =>
          have hser : ser .jNull = ['n', 'u', 'l', 'l'] := by simp [ser]
          rw [hser]
          simp [parseVal, skipWs, leadsWith, isWsCh]
        | jBool b =>
          cases b with
          | true =>
            have hser : ser (.jBool true) = ['t', 'r', 'u', 'e'] := by
              simp [ser]
            rw [hser]
            simp [parseVal, skipWs, leadsWith, isWsCh]
          | false =>
            have hser : ser (.jBool false) = ['f', 'a', 'l', 's', 'e'] := by
              simp [ser]
            rw [hser]
            simp [parseVal, skipWs, leadsWith, isWsCh]
        | jInt n =>
          have hser : ser (.jInt n) = intSer n := by simp [ser]
          rw [hser]
          obtain ⟨c, t, hct, hc⟩ :
              ∃ c t, intSer n = c :: t ∧ (c = '-' ∨ isDigitCh c = true) := by
            unfold intSer
            by_cases hn : n < 0
            · exact ⟨'-', natSer (-n).toNat, by simp [hn], Or.inl rfl⟩
            · obtain ⟨c, t, h1, h2⟩ := natSer_head n.toNat
              exact ⟨c, t, by simp [hn, h1], Or.inr h2⟩
          have hfacts : isWsCh c = false ∧ ¬ 'n' = c ∧ ¬ 't' = c ∧
              ¬ 'f' = c ∧ ¬ c = '"' ∧ ¬ c = '[' ∧ ¬ c = '\x7b' := by
            rcases hc with rfl | hd
            · exact ⟨by simp [isWsCh], by simp, by simp, by simp, by simp,
                by simp, by simp⟩
            · obtain ⟨h1, h2, h3, h4, h5, h6, h7, -, -, -, -, -, -⟩ :=
                digit_ne_all c hd
              exact ⟨h1, fun h => h2 h.symm, fun h => h3 h.symm,
                fun h => h4 h.symm, h5, h6, h7⟩
          obtain ⟨hws, hn1, ht1, hf1, hq1, hlb1, hob1⟩ := hfacts
          rw [hct, List.cons_append]
          simp only [parseVal]
          rw [skipWs_not_ws c hws]
          rw [leadsWith_ne_head _ _ _ _ hn1, leadsWith_ne_head _ _ _ _ ht1,
            leadsWith_ne_head _ _ _ _ hf1]
          simp only [Bool.false_eq_true, if_false]
          rw [if_neg hq1, if_neg hlb1, if_neg hob1]
          rw [← List.cons_append, ← hct]
          exact parseIntTok_intSer n rest hrest
        | jStr s =>
          have hser : ser (.jStr s) = '"' :: escStr s ++ ['"'] := by
            simp [ser]
          rw [hser]
          have hshape : ('"' :: escStr s ++ ['"']) ++ rest =
              '"' :: (escStr s ++ '"' :: rest) := by simp
          rw [hshape]
          simp only [parseVal]
          rw [skipWs_not_ws '"' (by simp [isWsCh])]
          simp only [leadsWith]
          simp
          exact parseStrAux_escStr s rest _
            (by have := escStr_length s; omega)
        | jArr xs =>
          have hser : ser (.jArr xs) = '[' :: serItems xs ++ [']'] := by
            simp [ser]
          rw [hser]
          have hshape : ('[' :: serItems xs ++ [']']) ++ rest =
              '[' :: (serItems xs ++ ']' :: rest) := by simp
          rw [hshape]
          simp only [parseVal]
          rw [skipWs_not_ws '[' (by simp [isWsCh])]
          cases xs with
          | nil =>
            have h0 : serItems ([] : List Json) = [] := by simp [serItems]
            rw [h0]
            simp [leadsWith, skipWs, isWsCh]
          | cons x xs2 =>
            obtain ⟨c0, t0, hct0, hgh0⟩ := ser_head x
            obtain ⟨t2, ht2⟩ : ∃ t2, serItems (x :: xs2) = ser x ++ t2 := by
              cases xs2 with
              | nil => exact ⟨[], by simp [serItems]⟩
              | cons y ys =>
                exact ⟨',' :: serItems (y :: ys), by simp [serItems]⟩
            have hhead : serItems (x :: xs2) ++ ']' :: rest =
                c0 :: (t0 ++ (t2 ++ ']' :: rest)) := by
              rw [ht2, hct0]
              simp
            obtain ⟨hws0, hne1, -, -, -⟩ := goodHead_facts c0 hgh0
            have hskip : skipWs (serItems (x :: xs2) ++ ']' :: rest) =
                serItems (x :: xs2) ++ ']' :: rest := by
              rw [hhead]
              exact skipWs_not_ws c0 hws0 _
            have hlw : leadsWith [']'] (serItems (x :: xs2) ++ ']' :: rest) =
                false := by
              rw [hhead]
              exact leadsWith_ne_head _ _ _ _ (fun h => hne1 h.symm)
            have hi := ihI (x :: xs2) rest
              (by simp only [sizeJ] at hs; omega) (by simp)
            simp [leadsWith, hskip, hlw, hi]
        | jObj kvs =>
          have hser : ser (.jObj kvs) = '\x7b' :: serKVs kvs ++ ['\x7d'] := by
            simp [ser]
          rw [hser]
          have hshape : ('\x7b' :: serKVs kvs ++ ['\x7d']) ++ rest =
              '\x7b' :: (serKVs kvs ++ '\x7d' :: rest) := by simp
          rw [hshape]
          simp only [parseVal]
          rw [skipWs_not_ws '\x7b' (by simp [isWsCh])]
          cases kvs with
          | nil =>
            have h0 : serKVs ([] : List (List Char × Json)) = [] := by
              simp [serKVs]
            rw [h0]
            simp [leadsWith, skipWs, isWsCh]
          | cons kv kvs2 =>
            obtain ⟨k, v⟩ := kv
            obtain ⟨t2, ht2⟩ : ∃ t2, serKVs ((k, v) :: kvs2) =
                '"' :: (escStr k ++ '"' :: ':' :: ser v ++ t2) := by
              cases kvs2 with
              | nil => exact ⟨[], by simp [serKVs]⟩
              | cons kv2 ys =>
                obtain ⟨k2, v2⟩ := kv2
                refine ⟨',' :: serKVs ((k2, v2) :: ys), ?_⟩
                simp [serKVs]
            have hhead : serKVs ((k, v) :: kvs2) ++ '\x7d' :: rest =
                '"' :: ((escStr k ++ '"' :: ':' :: ser v ++ t2) ++
                  '\x7d' :: rest) := by
              rw [ht2]
              simp
            have hskip : skipWs (serKVs ((k, v) :: kvs2) ++ '\x7d' :: rest) =
                serKVs ((k, v) :: kvs2) ++ '\x7d' :: rest := by
              rw [hhead]
              exact skipWs_not_ws '"' (by simp [isWsCh]) _
            have hlw : leadsWith ['\x7d']
                (serKVs ((k, v) :: kvs2) ++ '\x7d' :: rest) = false := by
              rw [hhead]
              exact leadsWith_ne_head _ _ _ _ (by simp)
            have hk := ihK ((k, v) :: kvs2) rest
              (by simp only [sizeJ] at hs; omega) (by simp)
            simp [leadsWith, hskip, hlw, hk]
      · intro xs rest hs hne
        match xs, hne with
        | x :: xs2, _ =>
        cases xs2 with
        | nil =>
          have h1 : serItems [x] = ser x := by simp [serItems]
          rw [h1]
          simp only [parseItems]
          have hv := ihV x (']' :: rest)
            (by simp only [sizeItems] at hs; omega)
            (by simp [digitHead, isDigitCh])
          rw [hv, optBindSome]
          rw [skipWs_not_ws ']' (by simp [isWsCh])]
          simp
        | cons y ys =>
          have h1 : serItems (x :: y :: ys) =
              ser x ++ ',' :: serItems (y :: ys) := by simp [serItems]
          rw [h1]
          have hshape : (ser x ++ ',' :: serItems (y :: ys)) ++ ']' :: rest =
              ser x ++ ',' :: (serItems (y :: ys) ++ ']' :: rest) := by simp
          rw [hshape]
          simp only [parseItems]
          have hv := ihV x (',' :: (serItems (y :: ys) ++ ']' :: rest))
            (by simp only [sizeItems] at hs; omega)
            (by simp [digitHead, isDigitCh])
          rw [hv, optBindSome]
          rw [skipWs_not_ws ',' (by simp [isWsCh])]
          have hi := ihI (y :: ys) rest
            (by simp only [sizeItems] at hs ⊢; omega) (by simp)
          simp [hi]
      · intro kvs rest hs hne
        match kvs, hne with
        | (k, v) :: kvs2, _ =>
        cases kvs2 with
        | nil =>
          have h1 : serKVs [(k, v)] = '"' :: escStr k ++ '"' :: ':' :: ser v := by
            simp [serKVs]
          rw [h1]
          have hshape : ('"' :: escStr k ++ '"' :: ':' :: ser v) ++
              '\x7d' :: rest =
              '"' :: (escStr k ++ '"' :: (':' :: (ser v ++ '\x7d' :: rest))) := by
            simp
          rw [hshape]
          simp only [parseKVs]
          rw [skipWs_not_ws '"' (by simp [isWsCh])]
          have hkey := parseStrAux_escStr k
            (':' :: (ser v ++ '\x7d' :: rest))
            ((escStr k ++ '"' :: (':' :: (ser v ++ '\x7d' :: rest))).length + 1)
            (by
              have := escStr_length k
              simp only [List.length_append, List.length_cons]
              omega)
          have hv := ihV v ('\x7d' :: rest)
            (by simp only [sizeKVs] at hs; omega)
            (by simp [digitHead, isDigitCh])
          simp only [hkey, optBindSome]
          rw [skipWs_not_ws ':' (by simp [isWsCh])]
          simp only [hv, optBindSome]
          rw [skipWs_not_ws '\x7d' (by simp [isWsCh])]
          simp
        | cons kv2 ys =>
          obtain ⟨k2, v2⟩ := kv2
          have h1 : serKVs ((k, v) :: (k2, v2) :: ys) =
              '"' :: escStr k ++ '"' :: ':' :: ser v ++
                ',' :: serKVs ((k2, v2) :: ys) := by simp [serKVs]
          rw [h1]
          have hshape : ('"' :: escStr k ++ '"' :: ':' :: ser v ++
              ',' :: serKVs ((k2, v2) :: ys)) ++ '\x7d' :: rest =
              '"' :: (escStr k ++ '"' :: (':' :: (ser v ++
                ',' :: (serKVs ((k2, v2) :: ys) ++ '\x7d' :: rest)))) := by
            simp
          rw [hshape]
          simp only [parseKVs]
          rw [skipWs_not_ws '"' (by simp [isWsCh])]
          have hkey := parseStrAux_escStr k
            (':' :: (ser v ++ ',' :: (serKVs ((k2, v2) :: ys) ++
              '\x7d' :: rest)))
            ((escStr k ++ '"' :: (':' :: (ser v ++ ',' ::
              (serKVs ((k2, v2) :: ys) ++ '\x7d' :: rest)))).length + 1)
            (by
              have := escStr_length k
              simp only [List.length_append, List.length_cons]
              omega)
          have hv := ihV v
            (',' :: (serKVs ((k2, v2) :: ys) ++ '\x7d' :: rest))
            (by simp only [sizeKVs] at hs; omega)
            (by simp [digitHead, isDigitCh])
          simp only [hkey, optBindSome]
          rw [skipWs_not_ws ':' (by simp [isWsCh])]
          simp only [hv, optBindSome]
          rw [skipWs_not_ws ',' (by simp [isWsCh])]
          have hk := ihK ((k2, v2) :: ys) rest
            (by simp only [sizeKVs] at hs ⊢; omega) (by simp)
          simp [hk]


mutual

theorem sizeJ_le_ser : ∀ v : Json, sizeJ v ≤ (ser v).length + 1
  | .jNull => by simp [sizeJ, ser]
  | .jBool b => by cases b <;> simp [sizeJ, ser]
  | .jInt n => by simp [sizeJ, ser]
  | .jStr s => by simp [sizeJ, ser]
  | .jArr xs => by
    have h := sizeItems_le_ser xs
    simp only [sizeJ, ser, List.length_cons, List.length_append]
    omega
  | .jObj kvs => by
    have h := sizeKVs_le_ser kvs
    simp only [sizeJ, ser, List.length_cons, List.length_append]
    omega

theorem sizeItems_le_ser : ∀ xs : List Json,
    sizeItems xs ≤ (serItems xs).length + 2
  | [] => by simp [sizeItems, serItems]
  | [x] => by
    have h := sizeJ_le_ser x
    rw [sizeItems, serItems]
    have h2 : sizeItems ([] : List Json) = 1 := by simp [sizeItems]
    rw [h2]
    omega
  | x :: y :: ys => by
    have h1 := sizeJ_le_ser x
    have h2 := sizeItems_le_ser (y :: ys)
    rw [sizeItems, serItems]
    simp only [List.length_append, List.length_cons]
    omega

theorem sizeKVs_le_ser : ∀ kvs : List (List Char × Json),
    sizeKVs kvs ≤ (serKVs kvs).length + 2
  | [] => by simp [sizeKVs, serKVs]
  | [(k, v)] => by
    have h := sizeJ_le_ser v
    rw [sizeKVs, serKVs]
    have h2 : sizeKVs ([] : List (List Char × Json)) = 1 := by simp [sizeKVs]
    rw [h2]
    simp only [List.length_append, List.length_cons]
    omega
  | (k, v) :: kv2 :: ys => by
    have h1 := sizeJ_le_ser v
    have h2 := sizeKVs_le_ser (kv2 :: ys)
    rw [sizeKVs, serKVs]
    simp only [List.length_append, List.length_cons]
    omega

end

theorem parse_ser (v : Json) : parse (ser v) = some v := by
  have h := (parse_round_aux ((ser v).length + 1)).1 v []
    (by have := sizeJ_le_ser v; omega) (by simp [digitHead])
  rw [List.append_nil] at h
  simp [parse, h, skipWs]


theorem indChars_ws (l : Nat) : ∀ c ∈ indChars l, isWsCh c = true := by
  intro c hc
  rw [indChars, List.mem_replicate] at hc
  rw [hc.2]
  rfl

theorem ws_not_digit (c : Char) (h : isWsCh c = true) :
    isDigitCh c = false := by
  simp only [isWsCh, Bool.or_eq_true, decide_eq_true_eq] at h
  rcases h with ((h | h) | h) | h <;> (subst h; rfl)

theorem digitHead_ws_close (w : List Char) (d : Char) (rest : List Char)
    (hw : ∀ c ∈ w, isWsCh c = true) (hd : isDigitCh d = false) :
    digitHead (w ++ d :: rest) = false := by
  cases w with
  | nil => simpa [digitHead]
  | cons c w2 =>
    have := ws_not_digit c (hw c (List.mem_cons_self _ _))
    simpa [digitHead]

theorem nl_ind_ws (l : Nat) : ∀ c ∈ '\n' :: indChars l, isWsCh c = true := by
  intro c hc
  rcases List.mem_cons.mp hc with rfl | h
  · rfl
  · exact indChars_ws l c h


set_option maxHeartbeats 1000000 in
theorem parseP_round_aux (fuel : Nat) :
    (∀ lvl v rest, sizeJ v ≤ fuel → digitHead rest = false →
      parseVal fuel (serP lvl v ++ rest) = some (v, rest)) ∧
    (∀ lvl xs w0 w rest, sizeItems xs ≤ fuel → xs ≠ [] →
      (∀ c ∈ w0, isWsCh c = true) → (∀ c ∈ w, isWsCh c = true) →
      parseItems fuel (w0 ++ (serPItems lvl xs ++ (w ++ ']' :: rest))) =
        some (xs, rest)) ∧
    (∀ lvl kvs w0 w rest, sizeKVs kvs ≤ fuel → kvs ≠ [] →
      (∀ c ∈ w0, isWsCh c = true) → (∀ c ∈ w, isWsCh c = true) →
      parseKVs fuel (w0 ++ (serPKVs lvl kvs ++ (w ++ '\x7d' :: rest))) =
        some (kvs, rest)) := by
  induction fuel using Nat.strong_induction_on with
  | _ fuel ih =>
    match fuel with
    | 0 =>
      refine ⟨?_, ?_, ?_⟩
      · intro lvl v rest hs _
        exact absurd hs (by have := sizeJ_pos v; omega)
      · intro lvl xs w0 w rest hs _
        exact absurd hs (by have := sizeItems_pos xs; omega)
      · intro lvl kvs w0 w rest hs _
        exact absurd hs (by have := sizeKVs_pos kvs; omega)
    | f + 1 =>
      obtain ⟨ihV, ihI, ihK⟩ := ih f (by omega)
      refine ⟨?_, ?_, ?_⟩
      · intro lvl v rest hs hrest
        cases v with
        | jNull =>
          have hser : serP lvl .jNull = ['n', 'u', 'l', 'l'] := by simp [serP]
          rw [hser]
          simp [parseVal, skipWs, leadsWith, isWsCh]
        | jBool b =>
          cases b with
          | true =>
            have hser : serP lvl (.jBool true) = ['t', 'r', 'u', 'e'] := by
              simp [serP]
            rw [hser]
            simp [parseVal, skipWs, leadsWith, isWsCh]
          | false =>
            have hser : serP lvl (.jBool false) = ['f', 'a', 'l', 's', 'e'] := by
              simp [serP]
            rw [hser]
            simp [parseVal, skipWs, leadsWith, isWsCh]
        | jInt n =>
          have hser : serP lvl (.jInt n) = intSer n := by simp [serP]
          rw [hser]
          obtain ⟨c, t, hct, hc⟩ :
              ∃ c t, intSer n = c :: t ∧ (c = '-' ∨ isDigitCh c = true) := by
            unfold intSer
            by_cases hn : n < 0
            · exact ⟨'-', natSer (-n).toNat, by simp [hn], Or.inl rfl⟩
            · obtain ⟨c, t, h1, h2⟩ := natSer_head n.toNat
              exact ⟨c, t, by simp [hn, h1], Or.inr h2⟩
          have hfacts : isWsCh c = false ∧ ¬ 'n' = c ∧ ¬ 't' = c ∧
              ¬ 'f' = c ∧ ¬ c = '"' ∧ ¬ c = '[' ∧ ¬ c = '\x7b' := by
            rcases hc with rfl | hd
            · exact ⟨by simp [isWsCh], by simp, by simp, by simp, by simp,
                by simp, by simp⟩
            · obtain ⟨h1, h2, h3, h4, h5, h6, h7, -, -, -, -, -, -⟩ :=
                digit_ne_all c hd
              exact ⟨h1, fun h => h2 h.symm, fun h => h3 h.symm,
                fun h => h4 h.symm, h5, h6, h7⟩
          obtain ⟨hws, hn1, ht1, hf1, hq1, hlb1, hob1⟩ := hfacts
          rw [hct, List.cons_append]
          simp only [parseVal]
          rw [skipWs_not_ws c hws]
          rw [leadsWith_ne_head _ _ _ _ hn1, leadsWith_ne_head _ _ _ _ ht1,
            leadsWith_ne_head _ _ _ _ hf1]
          simp only [Bool.false_eq_true, if_false]
          rw [if_neg hq1, if_neg hlb1, if_neg hob1]
          rw [← List.cons_append, ← hct]
          exact parseIntTok_intSer n rest hrest
        | jStr s =>
          have hser : serP lvl (.jStr s) = '"' :: escStr s ++ ['"'] := by
            simp [serP]
          rw [hser]
          have hshape : ('"' :: escStr s ++ ['"']) ++ rest =
              '"' :: (escStr s ++ '"' :: rest) := by simp
          rw [hshape]
          simp only [parseVal]
          rw [skipWs_not_ws '"' (by simp [isWsCh])]
          simp only [leadsWith]
          simp
          exact parseStrAux_escStr s rest _
            (by have := escStr_length s; omega)
        | jArr xs =>
          cases xs with
          | nil =>
            have hser : serP lvl (.jArr []) = ['[', ']'] := by simp [serP]
            rw [hser]
            simp [parseVal, skipWs, leadsWith, isWsCh]
          | cons x xs2 =>
            have hshape : serP lvl (.jArr (x :: xs2)) ++ rest =
                '[' :: (('\n' :: indChars (lvl + 1)) ++
                  (serPItems (lvl + 1) (x :: xs2) ++
                    (('\n' :: indChars lvl) ++ (']' :: rest)))) := by
              simp [serP]
            rw [hshape]
            simp only [parseVal]
            rw [skipWs_not_ws '[' (by simp [isWsCh])]
            obtain ⟨c0, t0, hct0, hgh0⟩ := serP_head (lvl + 1) x
            obtain ⟨t2, ht2⟩ : ∃ t2, serPItems (lvl + 1) (x :: xs2) =
                serP (lvl + 1) x ++ t2 := by
              cases xs2 with
              | nil => exact ⟨[], by simp [serPItems]⟩
              | cons y ys =>
                exact ⟨',' :: '\n' :: (indChars (lvl + 1) ++
                  serPItems (lvl + 1) (y :: ys)), by rw [serPItems]⟩
            obtain ⟨hws0, hne1, -, -, -⟩ := goodHead_facts c0 hgh0
            have hhead : serPItems (lvl + 1) (x :: xs2) ++
                (('\n' :: indChars lvl) ++ (']' :: rest)) =
                c0 :: (t0 ++ t2 ++ (('\n' :: indChars lvl) ++
                  (']' :: rest))) := by
              rw [ht2, hct0]
              simp
            have hskip : skipWs ((('\n' :: indChars (lvl + 1))) ++
                (serPItems (lvl + 1) (x :: xs2) ++
                  (('\n' :: indChars lvl) ++ (']' :: rest)))) =
                serPItems (lvl + 1) (x :: xs2) ++
                  (('\n' :: indChars lvl) ++ (']' :: rest)) := by
              rw [skipWs_ws_front _ (nl_ind_ws (lvl + 1)), hhead]
              exact skipWs_not_ws c0 hws0 _
            have hlw : leadsWith [']']
                (serPItems (lvl + 1) (x :: xs2) ++
                  (('\n' :: indChars lvl) ++ (']' :: rest))) = false := by
              rw [hhead]
              exact leadsWith_ne_head _ _ _ _ (fun h => hne1 h.symm)
            have hi := ihI (lvl + 1) (x :: xs2) [] ('\n' :: indChars lvl) rest
              (by simp only [sizeJ] at hs; omega) (by simp)
              (by intro c hc; simp at hc) (nl_ind_ws lvl)
            rw [List.nil_append] at hi
            simp only [List.cons_append, List.append_assoc] at hskip hlw hi
            simp [leadsWith, hskip, hlw, hi]
        | jObj kvs =>
          cases kvs with
          | nil =>
            have hser : serP lvl (.jObj []) = ['\x7b', '\x7d'] := by
              simp [serP]
            rw [hser]
            simp [parseVal, skipWs, leadsWith, isWsCh]
          | cons kv kvs2 =>
            obtain ⟨k, v⟩ := kv
            have hshape : serP lvl (.jObj ((k, v) :: kvs2)) ++ rest =
                '\x7b' :: (('\n' :: indChars (lvl + 1)) ++
                  (serPKVs (lvl + 1) ((k, v) :: kvs2) ++
                    (('\n' :: indChars lvl) ++ ('\x7d' :: rest)))) := by
              simp [serP]
            rw [hshape]
            simp only [parseVal]
            rw [skipWs_not_ws '\x7b' (by simp [isWsCh])]
            obtain ⟨t2, ht2⟩ : ∃ t2, serPKVs (lvl + 1) ((k, v) :: kvs2) =
                '"' :: (escStr k ++ '"' :: ':' :: ' ' :: serP (lvl + 1) v ++
                  t2) := by
              cases kvs2 with
              | nil => exact ⟨[], by simp [serPKVs]⟩
              | cons kv2 ys =>
                obtain ⟨k2, v2⟩ := kv2
                refine ⟨',' :: '\n' :: (indChars (lvl + 1) ++
                  serPKVs (lvl + 1) ((k2, v2) :: ys)), ?_⟩
                rw [serPKVs]
                simp
            have hhead : serPKVs (lvl + 1) ((k, v) :: kvs2) ++
                (('\n' :: indChars lvl) ++ ('\x7d' :: rest)) =
                '"' :: ((escStr k ++ '"' :: ':' :: ' ' :: serP (lvl + 1) v ++
                  t2) ++ (('\n' :: indChars lvl) ++ ('\x7d' :: rest))) := by
              rw [ht2]
              simp
            have hskip : skipWs ((('\n' :: indChars (lvl + 1))) ++
                (serPKVs (lvl + 1) ((k, v) :: kvs2) ++
                  (('\n' :: indChars lvl) ++ ('\x7d' :: rest)))) =
                serPKVs (lvl + 1) ((k, v) :: kvs2) ++
                  (('\n' :: indChars lvl) ++ ('\x7d' :: rest)) := by
              rw [skipWs_ws_front _ (nl_ind_ws (lvl + 1)), hhead]
              exact skipWs_not_ws '"' (by simp [isWsCh]) _
            have hlw : leadsWith ['\x7d']
                (serPKVs (lvl + 1) ((k, v) :: kvs2) ++
                  (('\n' :: indChars lvl) ++ ('\x7d' :: rest))) = false := by
              rw [hhead]
              exact leadsWith_ne_head _ _ _ _ (by simp)
            have hk := ihK (lvl + 1) ((k, v) :: kvs2) []
              ('\n' :: indChars lvl) rest
              (by simp only [sizeJ] at hs; omega) (by simp)
              (by intro c hc; simp at hc) (nl_ind_ws lvl)
            rw [List.nil_append] at hk
            simp only [List.cons_append, List.append_assoc] at hskip hlw hk
            simp [leadsWith, hskip, hlw, hk]
      · intro lvl xs w0 w rest hs hne hw0 hw
        match xs, hne with
        | x :: xs2, _ =>
        cases xs2 with
        | nil =>
          have h1 : serPItems lvl [x] = serP lvl x := by simp [serPItems]
          rw [h1]
          simp only [parseItems]
          rw [parseVal_ws_front f w0 hw0]
          have hv := ihV lvl x (w ++ ']' :: rest)
            (by simp only [sizeItems] at hs; omega)
            (digitHead_ws_close w ']' rest hw (by rfl))
          rw [hv, optBindSome]
          rw [skipWs_ws_front w hw]
          rw [skipWs_not_ws ']' (by simp [isWsCh])]
          simp
        | cons y ys =>
          have h1 : serPItems lvl (x :: y :: ys) = serP lvl x ++
              ',' :: '\n' :: (indChars lvl ++ serPItems lvl (y :: ys)) := by
            rw [serPItems]
          rw [h1]
          have hshape : w0 ++ ((serP lvl x ++
              ',' :: '\n' :: (indChars lvl ++ serPItems lvl (y :: ys))) ++
              (w ++ ']' :: rest)) =
              w0 ++ (serP lvl x ++ (',' :: (('\n' :: indChars lvl) ++
                (serPItems lvl (y :: ys) ++ (w ++ ']' :: rest))))) := by
            simp
          rw [hshape]
          simp only [parseItems]
          rw [parseVal_ws_front f w0 hw0]
          have hv := ihV lvl x
            (',' :: (('\n' :: indChars lvl) ++
              (serPItems lvl (y :: ys) ++ (w ++ ']' :: rest))))
            (by simp only [sizeItems] at hs; omega)
            (by simp [digitHead, isDigitCh])
          rw [hv, optBindSome]
          rw [skipWs_not_ws ',' (by simp [isWsCh])]
          have hi := ihI lvl (y :: ys) ('\n' :: indChars lvl) w rest
            (by simp only [sizeItems] at hs ⊢; omega) (by simp)
            (nl_ind_ws lvl) hw
          simp only [List.cons_append, List.append_assoc] at hi
          simp [hi]
      · intro lvl kvs w0 w rest hs hne hw0 hw
        match kvs, hne with
        | (k, v) :: kvs2, _ =>
        cases kvs2 with
        | nil =>
          have h1 : serPKVs lvl [(k, v)] =
              '"' :: escStr k ++ '"' :: ':' :: ' ' :: serP lvl v := by
            simp [serPKVs]
          rw [h1]
          have hshape : w0 ++ (('"' :: escStr k ++
              '"' :: ':' :: ' ' :: serP lvl v) ++ (w ++ '\x7d' :: rest)) =
              w0 ++ ('"' :: (escStr k ++ '"' :: (':' :: (' ' ::
                (serP lvl v ++ (w ++ '\x7d' :: rest)))))) := by
            simp
          rw [hshape]
          simp only [parseKVs]
          rw [skipWs_ws_front w0 hw0]
          rw [skipWs_not_ws '"' (by simp [isWsCh])]
          have hkey := parseStrAux_escStr k
            (':' :: (' ' :: (serP lvl v ++ (w ++ '\x7d' :: rest))))
            ((escStr k ++ '"' :: (':' :: (' ' ::
              (serP lvl v ++ (w ++ '\x7d' :: rest))))).length + 1)
            (by
              have := escStr_length k
              simp only [List.length_append, List.length_cons]
              omega)
          have hv := ihV lvl v (w ++ '\x7d' :: rest)
            (by simp only [sizeKVs] at hs; omega)
            (digitHead_ws_close w '\x7d' rest hw (by rfl))
          simp only [hkey, optBindSome]
          rw [skipWs_not_ws ':' (by simp [isWsCh])]
          have hv2 : parseVal f (' ' :: (serP lvl v ++ (w ++ '\x7d' :: rest))) =
              some (v, w ++ '\x7d' :: rest) := by
            have := parseVal_ws_front f [' ']
              (by intro c hc; simp at hc; rw [hc]; rfl)
              (serP lvl v ++ (w ++ '\x7d' :: rest))
            rw [List.singleton_append] at this
            rw [this, hv]
          simp only [hv2, optBindSome]
          rw [skipWs_ws_front w hw]
          rw [skipWs_not_ws '\x7d' (by simp [isWsCh])]
          simp
        | cons kv2 ys =>
          obtain ⟨k2, v2⟩ := kv2
          have h1 : serPKVs lvl ((k, v) :: (k2, v2) :: ys) =
              '"' :: escStr k ++ '"' :: ':' :: ' ' :: serP lvl v ++
                ',' :: '\n' :: (indChars lvl ++
                  serPKVs lvl ((k2, v2) :: ys)) := by
            rw [serPKVs]
          rw [h1]
          have hshape : w0 ++ (('"' :: escStr k ++
              '"' :: ':' :: ' ' :: serP lvl v ++
                ',' :: '\n' :: (indChars lvl ++
                  serPKVs lvl ((k2, v2) :: ys))) ++ (w ++ '\x7d' :: rest)) =
              w0 ++ ('"' :: (escStr k ++ '"' :: (':' :: (' ' ::
                (serP lvl v ++ (',' :: (('\n' :: indChars lvl) ++
                  (serPKVs lvl ((k2, v2) :: ys) ++
                    (w ++ '\x7d' :: rest))))))))) := by
            simp
          rw [hshape]
          simp only [parseKVs]
          rw [skipWs_ws_front w0 hw0]
          rw [skipWs_not_ws '"' (by simp [isWsCh])]
          have hkey := parseStrAux_escStr k
            (':' :: (' ' :: (serP lvl v ++ (',' :: (('\n' :: indChars lvl) ++
              (serPKVs lvl ((k2, v2) :: ys) ++ (w ++ '\x7d' :: rest)))))))
            ((escStr k ++ '"' :: (':' :: (' ' ::
              (serP lvl v ++ (',' :: (('\n' :: indChars lvl) ++
                (serPKVs lvl ((k2, v2) :: ys) ++
                  (w ++ '\x7d' :: rest)))))))).length + 1)
            (by
              have := escStr_length k
              simp only [List.length_append, List.length_cons]
              omega)
          have hv := ihV lvl v
            (',' :: (('\n' :: indChars lvl) ++
              (serPKVs lvl ((k2, v2) :: ys) ++ (w ++ '\x7d' :: rest))))
            (by simp only [sizeKVs] at hs; omega)
            (by simp [digitHead, isDigitCh])
          simp only [hkey, optBindSome]
          rw [skipWs_not_ws ':' (by simp [isWsCh])]
          have hv2 : parseVal f (' ' :: (serP lvl v ++
              (',' :: (('\n' :: indChars lvl) ++
                (serPKVs lvl ((k2, v2) :: ys) ++ (w ++ '\x7d' :: rest)))))) =
              some (v, ',' :: (('\n' :: indChars lvl) ++
                (serPKVs lvl ((k2, v2) :: ys) ++ (w ++ '\x7d' :: rest)))) := by
            have := parseVal_ws_front f [' ']
              (by intro c hc; simp at hc; rw [hc]; rfl)
              (serP lvl v ++ (',' :: (('\n' :: indChars lvl) ++
                (serPKVs lvl ((k2, v2) :: ys) ++ (w ++ '\x7d' :: rest)))))
            rw [List.singleton_append] at this
            rw [this, hv]
          simp only [hv2, optBindSome]
          rw [skipWs_not_ws ',' (by simp [isWsCh])]
          have hk := ihK lvl ((k2, v2) :: ys) ('\n' :: indChars lvl) w rest
            (by simp only [sizeKVs] at hs ⊢; omega) (by simp)
            (nl_ind_ws lvl) hw
          simp only [List.cons_append, List.append_assoc] at hk
          simp [hk]


mutual

theorem sizeJ_le_serP : ∀ (lvl : Nat) (v : Json),
    sizeJ v ≤ (serP lvl v).length + 1
  | _, .jNull => by simp [sizeJ, serP]
  | _, .jBool b => by cases b <;> simp [sizeJ, serP]
  | _, .jInt n => by simp [sizeJ, serP]
  | _, .jStr s => by simp [sizeJ, serP]
  | _, .jArr [] => by simp [sizeJ, serP, sizeItems]
  | lvl, .jArr (x :: xs) => by
    have h := sizeItems_le_serP (lvl + 1) (x :: xs)
    rw [sizeJ, serP]
    simp only [List.length_cons, List.length_append]
    omega
  | _, .jObj [] => by simp [sizeJ, serP, sizeKVs]
  | lvl, .jObj (kv :: kvs) => by
    have h := sizeKVs_le_serP (lvl + 1) (kv :: kvs)
    rw [sizeJ, serP]
    simp only [List.length_cons, List.length_append]
    omega

theorem sizeItems_le_serP : ∀ (lvl : Nat) (xs : List Json),
    sizeItems xs ≤ (serPItems lvl xs).length + 2
  | _, [] => by simp [sizeItems, serPItems]
  | lvl, [x] => by
    have h := sizeJ_le_serP lvl x
    rw [sizeItems, serPItems]
    have h2 : sizeItems ([] : List Json) = 1 := by simp [sizeItems]
    rw [h2]
    omega
  | lvl, x :: y :: ys => by
    have h1 := sizeJ_le_serP lvl x
    have h2 := sizeItems_le_serP lvl (y :: ys)
    rw [sizeItems, serPItems]
    simp only [List.length_append, List.length_cons]
    omega

theorem sizeKVs_le_serP : ∀ (lvl : Nat) (kvs : List (List Char × Json)),
    sizeKVs kvs ≤ (serPKVs lvl kvs).length + 2
  | _, [] => by simp [sizeKVs, serPKVs]
  | lvl, [(k, v)] => by
    have h := sizeJ_le_serP lvl v
    rw [sizeKVs, serPKVs]
    have h2 : sizeKVs ([] : List (List Char × Json)) = 1 := by simp [sizeKVs]
    rw [h2]
    simp only [List.length_append, List.length_cons]
    omega
  | lvl, (k, v) :: kv2 :: ys => by
    have h1 := sizeJ_le_serP lvl v
    have h2 := sizeKVs_le_serP lvl (kv2 :: ys)
    rw [sizeKVs, serPKVs]
    simp only [List.length_append, List.length_cons]
    omega

end

theorem parse_serP (lvl : Nat) (v : Json) : parse (serP lvl v) = some v := by
  have h := (parseP_round_aux ((serP lvl v).length + 1)).1 lvl v []
    (by have := sizeJ_le_serP lvl v; omega) (by simp [digitHead])
  rw [List.append_nil] at h
  simp [parse, h, skipWs]

theorem parse_exportJsonDoc (rs : List Json) :
    parse (exportJsonDoc rs) = some (.jArr rs) := by
  rw [exportJsonDoc]
  exact parse_serP 0 (.jArr rs)

theorem writeBatchGo_append (A B : List Json) (hA : A ≠ []) (s : Bool) :
    writeBatchGo (A ++ B) s = writeBatchGo A s ++ writeBatchGo B true := by
  induction A generalizing s with
  | nil => exact absurd rfl hA
  | cons x A2 ih =>
    cases A2 with
    | nil =>
      simp [writeBatchGo]
    | cons y A3 =>
      have e1 : writeBatchGo ((x :: y :: A3) ++ B) s =
          (if s then [',', '\n'] else []) ++
            ' ' :: ' ' :: ser x ++ writeBatchGo ((y :: A3) ++ B) true := by
        rw [List.cons_append, writeBatchGo]
      have e2 : writeBatchGo (x :: y :: A3) s =
          (if s then [',', '\n'] else []) ++
            ' ' :: ' ' :: ser x ++ writeBatchGo (y :: A3) true := by
        rw [writeBatchGo]
      rw [e1, e2, ih (by simp) true]
      simp

theorem streamLoop_writeBatchGo (b : Nat) :
    ∀ (rs batch : List Json) (first : Bool),
      streamLoop b rs batch first = writeBatchGo (batch ++ rs) (!first) := by
  intro rs
  induction rs with
  | nil =>
    intro batch first
    cases batch with
    | nil => simp [streamLoop, writeBatchGo]
    | cons m batch2 => simp [streamLoop, writeBatch]
  | cons m rest ih =>
    intro batch first
    simp only [streamLoop]
    by_cases hb : b ≤ (batch ++ [m]).length
    · rw [if_pos hb, ih [] false, writeBatch]
      rw [List.nil_append]
      have h2 : batch ++ m :: rest = (batch ++ [m]) ++ rest := by simp
      rw [h2, writeBatchGo_append (batch ++ [m]) rest (by simp) (!first)]
      simp
    · rw [if_neg hb, ih (batch ++ [m]) first]
      simp

theorem processStream_eq (rs : List Json) (b : Nat) :
    processStream rs b =
      '[' :: '\n' :: (writeBatchGo rs false ++ '\n' :: [']']) := by
  rw [processStream, streamLoop_writeBatchGo b rs [] true]
  simp


theorem parseItems_ws_front (fuel : Nat) (hf : 0 < fuel) (w : List Char)
    (hw : ∀ c ∈ w, isWsCh c = true) (s : List Char) :
    parseItems fuel (w ++ s) = parseItems fuel s := by
  obtain ⟨f, rfl⟩ := Nat.exists_eq_succ_of_ne_zero (by omega : fuel ≠ 0)
  simp only [parseItems]
  rw [parseVal_ws_front f w hw]

theorem sizeItems_le_writeBatchGo : ∀ (xs : List Json) (s : Bool),
    sizeItems xs ≤ (writeBatchGo xs s).length + 2
  | [], _ => by simp [sizeItems, writeBatchGo]
  | x :: xs, s => by
    have h1 := sizeJ_le_ser x
    have h2 := sizeItems_le_writeBatchGo xs true
    rw [sizeItems, writeBatchGo]
    cases s <;> simp only [List.length_append, List.length_cons,
      if_true, if_false, List.length_nil] <;> simp <;> omega

theorem parseItems_stream (fuel : Nat) :
    ∀ (xs : List Json) (w0 rest : List Char),
      sizeItems xs ≤ fuel → xs ≠ [] → (∀ c ∈ w0, isWsCh c = true) →
      parseItems fuel
          (w0 ++ (writeBatchGo xs false ++ ('\n' :: ']' :: rest))) =
        some (xs, rest) := by
  induction fuel using Nat.strong_induction_on with
  | _ fuel ih =>
    intro xs w0 rest hs hne hw0
    match fuel, xs, hne with
    | 0, xs, hne => exact absurd hs (by have := sizeItems_pos xs; omega)
    | f + 1, x :: xs2, _ =>
      have hwb : writeBatchGo (x :: xs2) false =
          ' ' :: ' ' :: ser x ++ writeBatchGo xs2 true := by
        rw [writeBatchGo]
        simp
      rw [hwb]
      have hshape : w0 ++ ((' ' :: ' ' :: ser x ++ writeBatchGo xs2 true) ++
          ('\n' :: ']' :: rest)) =
          (w0 ++ [' ', ' ']) ++
            (ser x ++ (writeBatchGo xs2 true ++ ('\n' :: ']' :: rest))) := by
        simp
      rw [hshape]
      simp only [parseItems]
      rw [parseVal_ws_front f (w0 ++ [' ', ' '])
        (by
          intro c hc
          rcases List.mem_append.mp hc with h | h
          · exact hw0 c h
          · simp only [List.mem_cons, List.mem_singleton] at h
            rcases h with rfl | rfl | h
            · rfl
            · rfl
            · exact absurd h (List.not_mem_nil c))]
      cases xs2 with
      | nil =>
        have h0 : writeBatchGo ([] : List Json) true = [] := rfl
        rw [h0, List.nil_append]
        have hv := (parse_round_aux f).1 x ('\n' :: ']' :: rest)
          (by simp only [sizeItems] at hs; omega)
          (by simp [digitHead, isDigitCh])
        rw [hv, optBindSome]
        rw [show skipWs ('\n' :: ']' :: rest) = ']' :: rest from by
          simp [skipWs, isWsCh]]
        simp
      | cons y ys =>
        have hwb2 : writeBatchGo (y :: ys) true =
            ',' :: '\n' :: writeBatchGo (y :: ys) false := by
          rw [writeBatchGo, writeBatchGo]
          simp
        rw [hwb2]
        have hshape2 : (',' :: '\n' :: writeBatchGo (y :: ys) false) ++
            ('\n' :: ']' :: rest) =
            ',' :: '\n' ::
              (writeBatchGo (y :: ys) false ++ ('\n' :: ']' :: rest)) := by
          simp
        rw [hshape2]
        have hv := (parse_round_aux f).1 x
          (',' :: '\n' ::
            (writeBatchGo (y :: ys) false ++ ('\n' :: ']' :: rest)))
          (by simp only [sizeItems] at hs; omega)
          (by simp [digitHead, isDigitCh])
        rw [hv, optBindSome]
        rw [skipWs_not_ws ',' (by simp [isWsCh])]
        have hi := ih f (by omega) (y :: ys) ['\n'] rest
          (by simp only [sizeItems] at hs ⊢; omega) (by simp)
          (by
            intro c hc
            simp only [List.mem_singleton] at hc
            rw [hc]
            rfl)
        rw [List.singleton_append] at hi
        simp [hi]

theorem parse_processStream (rs : List Json) (b : Nat) :
    parse (processStream rs b) = some (.jArr rs) := by
  rw [processStream_eq]
  cases rs with
  | nil =>
    have h0 : writeBatchGo ([] : List Json) false = [] := rfl
    rw [h0, List.nil_append]
    rfl
  | cons x rs2 =>
    obtain ⟨c0, t0, hct0, hgh0⟩ := ser_head x
    obtain ⟨hws0, hne1, -, -, -⟩ := goodHead_facts c0 hgh0
    have hwb : writeBatchGo (x :: rs2) false =
        ' ' :: ' ' :: ser x ++ writeBatchGo rs2 true := by
      rw [writeBatchGo]
      simp
    have hshape : ('[' : Char) :: '\n' ::
        (writeBatchGo (x :: rs2) false ++ '\n' :: [']']) =
        '[' :: (('\n' :: [' ', ' ']) ++
          (ser x ++ (writeBatchGo rs2 true ++ ('\n' :: ']' :: [])))) := by
      rw [hwb]
      simp
    rw [hshape]
    have hwsl : ∀ c ∈ ('\n' :: [' ', ' ']), isWsCh c = true := by
      intro c hc
      simp only [List.mem_cons, List.mem_singleton] at hc
      rcases hc with rfl | rfl | rfl | h
      · rfl
      · rfl
      · rfl
      · exact absurd h (List.not_mem_nil c)
    have hhead : ser x ++ (writeBatchGo rs2 true ++ ('\n' :: ']' :: [])) =
        c0 :: (t0 ++ (writeBatchGo rs2 true ++ ('\n' :: ']' :: []))) := by
      rw [hct0]
      simp
    have hskip : skipWs (('\n' :: [' ', ' ']) ++
        (ser x ++ (writeBatchGo rs2 true ++ ('\n' :: ']' :: [])))) =
        ser x ++ (writeBatchGo rs2 true ++ ('\n' :: ']' :: [])) := by
      rw [skipWs_ws_front _ hwsl, hhead]
      exact skipWs_not_ws c0 hws0 _
    have hlw : leadsWith [']']
        (ser x ++ (writeBatchGo rs2 true ++ ('\n' :: ']' :: []))) =
        false := by
      rw [hhead]
      exact leadsWith_ne_head _ _ _ _ (fun h => hne1 h.symm)
    set L := ('[' : Char) :: (('\n' :: [' ', ' ']) ++
      (ser x ++ (writeBatchGo rs2 true ++ ('\n' :: ']' :: [])))) with hL
    have hfpos : 0 < L.length := by
      rw [hL]
      simp
    have hitems : parseItems L.length
        (ser x ++ (writeBatchGo rs2 true ++ ('\n' :: ']' :: []))) =
        some (x :: rs2, []) := by
      have hst := parseItems_stream L.length (x :: rs2) [] []
        (by
          have hb := sizeItems_le_writeBatchGo (x :: rs2) false
          rw [hL]
          rw [hwb] at hb
          simp only [List.length_cons, List.length_append] at hb ⊢
          omega)
        (by simp) (by intro c hc; exact absurd hc (List.not_mem_nil c))
      rw [List.nil_append, hwb] at hst
      have hsh3 : (' ' :: ' ' :: ser x ++ writeBatchGo rs2 true) ++
          ('\n' :: ']' :: []) = [' ', ' '] ++
            (ser x ++ (writeBatchGo rs2 true ++ ('\n' :: ']' :: []))) := by
        simp
      rw [hsh3] at hst
      rw [parseItems_ws_front L.length hfpos [' ', ' ']
        (by
          intro c hc
          simp only [List.mem_cons, List.mem_singleton] at hc
          rcases hc with rfl | rfl | h
          · rfl
          · rfl
          · exact absurd h (List.not_mem_nil c)) _] at hst
      exact hst
    have hpv : parseVal (L.length + 1) L = some (.jArr (x :: rs2), []) := by
      rw [hL] at hitems ⊢
      simp only [parseVal]
      rw [skipWs_not_ws '[' (by simp [isWsCh])]
      simp only [List.cons_append, List.nil_append, List.append_assoc,
        List.length_cons, List.length_append,
        List.length_nil] at hskip hlw hitems
      simp [leadsWith, hskip, hlw, hitems]
    simp only [parse, hpv]
    simp [skipWs]

/-- C8: round-trip of the two JSON exports. For every list of
JSON-representable records, parsing the indented document produced by
`export_json` yields exactly the original record list, and for every batch
size, parsing the streamed array written batch-by-batch by
`process_messages_stream` [and] `_write_batch` also yields exactly the
original record list, field for field and in order. -/
theorem claim_C8 :
    (∀ rs : List Json, parse (exportJsonDoc rs) = some (.jArr rs)) ∧
    (∀ (rs : List Json) (b : Nat),
      parse (processStream rs b) = some (.jArr rs)) :=
  ⟨parse_exportJsonDoc, parse_processStream⟩

end StreamJson

end TCM
